import Mathlib

set_option maxHeartbeats 1000000
set_option maxRecDepth 100000

/- Shallow embedding of the reactormap pipeline:
   scripts/fetch_iaea_data.py (the "v1" fetcher), scripts/fetch_iaea_data_v2.py
   (the "v2" fetcher) and scripts/enrich_wikipedia.py.  Python dicts whose key
   sets are fixed become structures with Option-valued fields (a key that is
   absent and a key bound to None are both `none`, which is adequate because
   every read in the scripts goes through dict.get); Python truthiness of the
   relevant values is modelled explicitly.  String functions are modelled at
   the character-list level for ASCII input, which is what the scraped tables
   and fixture data contain. -/

/-- Python truthiness of an optional integer (None and 0 are falsy). -/
def truthyInt : Option Int → Bool
  | none => false
  | some n => decide (n ≠ 0)

/-- Python truthiness of an optional string (None and "" are falsy). -/
def truthyStr : Option String → Bool
  | none => false
  | some s => decide (s ≠ "")

/-- ASCII whitespace, as removed by Python str.strip on ASCII input. -/
def isSpaceChar (c : Char) : Bool :=
  c == ' ' || c == '\t' || c == '\n' || c == '\r' || c == '\x0b' || c == '\x0c'

/-- Python str.strip restricted to ASCII whitespace. -/
def pyStrip (s : String) : String :=
  String.mk (((s.data.dropWhile isSpaceChar).reverse.dropWhile isSpaceChar).reverse)

/-- Python str.lower restricted to ASCII letters. -/
def lowerChar (c : Char) : Char :=
  if 'A' ≤ c ∧ c ≤ 'Z' then Char.ofNat (c.toNat + 32) else c

/-- Python str.lower restricted to ASCII letters. -/
def pyLower (s : String) : String := String.mk (s.data.map lowerChar)

/-- Does the second list start with the first one? -/
def startsWith : List Char → List Char → Bool
  | [], _ => true
  | _ :: _, [] => false
  | a :: as, b :: bs => a == b && startsWith as bs

/-- Does the second list contain the first one as a contiguous run? -/
def hasSub (needle : List Char) : List Char → Bool
  | [] => startsWith needle []
  | l@(_ :: t) => startsWith needle l || hasSub needle t

/-- Python "needle in hay" substring test. -/
def strContains (hay needle : String) : Bool := hasSub needle.data hay.data

/-- Numeric value of a list of ASCII digits. -/
def digitsVal (l : List Char) : Nat := l.foldl (fun a c => a * 10 + (c.toNat - 48)) 0

/-- After a first digit, Python int() accepts digits grouped by single
    (non-leading, non-trailing) underscores. -/
def usTail : List Char → Bool
  | [] => true
  | c :: rest =>
    if c = '_' then
      match rest with
      | [] => false
      | d :: _ => d.isDigit && usTail rest
    else c.isDigit && usTail rest

/-- The digit part of a Python int literal: nonempty, starts with a digit,
    digits possibly grouped by single underscores. -/
def pyDigitStr : List Char → Bool
  | [] => false
  | c :: rest => c.isDigit && usTail rest

/-- Parse the digit part of a Python int literal; its value ignores the
    grouping underscores. -/
def parseDigits (l : List Char) : Option Nat :=
  if pyDigitStr l then some (digitsVal (l.filter Char.isDigit)) else none

/-- Python int() on an already-stripped ASCII string: an optional sign
    followed by (possibly underscore-grouped) digits succeeds, anything else
    raises ValueError (modelled as none). -/
def pyInt (s : String) : Option Int :=
  match s.data with
  | [] => none
  | c :: rest =>
    if c = '+' then (parseDigits rest).map Int.ofNat
    else if c = '-' then (parseDigits rest).map (fun n => -(n : Int))
    else (parseDigits (c :: rest)).map Int.ofNat

/-- int(data.replace(",", "").replace(" ", "")): replacing single characters
    by the empty string is exactly a character filter. -/
def parseCapacity (data : String) : Option Int :=
  pyInt (String.mk (data.data.filter (fun c => decide (c ≠ ',' ∧ c ≠ ' '))))

/-- The index of the last element satisfying p (Python dict comprehensions and
    assignment loops let the last writer for a key win). -/
def lastIdxWhere (p : α → Bool) : List α → Option Nat
  | [] => none
  | x :: xs =>
    match lastIdxWhere p xs with
    | some j => some (j + 1)
    | none => if p x then some 0 else none

/-- dict(attrs).get(key, dflt): the last binding of the key wins. -/
def attrGet (attrs : List (String × String)) (key dflt : String) : String :=
  attrs.foldl (fun acc p => if p.1 == key then p.2 else acc) dflt

/-- re.search(r"_(\d+)$", s): a trailing digit run preceded by an underscore. -/
def rowIndexOf (s : String) : Option Int :=
  let rev := s.data.reverse
  let ds := rev.takeWhile Char.isDigit
  if ds ≠ [] ∧ (rev.drop ds.length).head? = some '_' then
    some (Int.ofNat (digitsVal ds.reverse))
  else none

/-- re.search(r"current=(\d+)", href): the leftmost occurrence of "current="
    that is immediately followed by at least one digit; the group is the
    maximal digit run there. -/
def findCurrentId : List Char → Option Int
  | [] => none
  | l@(_ :: t) =>
    if startsWith "current=".data l then
      let ds := (l.drop 8).takeWhile Char.isDigit
      if ds ≠ [] then some (Int.ofNat (digitsVal ds)) else findCurrentId t
    else findCurrentId t

/-- A row under construction or emitted by either reactor-table parser.
    Union of the keys either parser can write, plus the country fields added
    by fetch_country_reactors; an Option field is none when the key is absent. -/
structure PRow where
  name : Option String := none
  country : Option String := none
  country_code : Option String := none
  status : Option String := none
  reactor_type : Option String := none
  location : Option String := none
  capacity : Option Int := none
  construction_start : Option String := none
  grid_connection : Option String := none
  commercial_operation : Option String := none
  iaea_id : Option Int := none
  row_index : Option Int := none
deriving DecidableEq

def emptyRow : PRow := {}

/-- Mutable state shared by IAEAReactorParser (v1) and ReactorTableParser (v2);
    in_tbody and row_count are only used by v2. -/
structure PState where
  reactors : List PRow := []
  current_reactor : PRow := emptyRow
  in_table : Bool := false
  in_tbody : Bool := false
  in_row : Bool := false
  in_cell : Bool := false
  cell_index : Nat := 0
  current_data : String := ""
  row_count : Nat := 0
deriving DecidableEq

def initPState : PState := {}

/-- One event of the HTMLParser tag stream. -/
inductive HEvent where
  | start (tag : String) (attrs : List (String × String))
  | close (tag : String)
  | text (data : String)
deriving DecidableEq

/-- handle_data, identical in both parsers. -/
def handleDataP (s : PState) (d : String) : PState :=
  if s.in_cell then { s with current_data := s.current_data ++ d } else s

/-- ReactorTableParser.handle_starttag (v2). -/
def handleStartV2 (s : PState) (tag : String) (attrs : List (String × String)) : PState :=
  let s :=
    if tag == "table" && strContains (attrGet attrs "class" "") "tablesorter" then
      { s with in_table := true }
    else s
  if s.in_table then
    if tag == "tbody" then { s with in_tbody := true }
    else if tag == "tr" && s.in_tbody then
      { s with in_row := true, cell_index := 0, current_reactor := emptyRow,
               row_count := s.row_count + 1 }
    else if tag == "td" && s.in_row then { s with in_cell := true, current_data := "" }
    else if tag == "a" && s.in_cell then
      let eid := attrGet attrs "id" ""
      if strContains eid "hypReactorName" then
        match rowIndexOf eid with
        | some n => { s with current_reactor := { s.current_reactor with row_index := some n } }
        | none => s
      else s
    else s
  else s

/-- `if data: try: capacity = int(...) except ValueError: pass` (v2 cell 5). -/
def v2SetCapacity (data : String) (prev : Option Int) : Option Int :=
  if data ≠ "" then
    match parseCapacity data with
    | some n => some n
    | none => prev
  else prev

/-- The cell-index-to-field mapping of ReactorTableParser.handle_endtag (v2). -/
def mapCellV2 (idx : Nat) (data : String) (r : PRow) : PRow :=
  if idx = 0 then { r with name := some data }
  else if idx = 1 then { r with reactor_type := some (pyStrip data) }
  else if idx = 2 then { r with status := some (pyStrip data) }
  else if idx = 3 then { r with location := some (pyStrip data) }
  else if idx = 5 then { r with capacity := v2SetCapacity data r.capacity }
  else if idx = 6 then { r with grid_connection := some (pyStrip data) }
  else r

/-- ReactorTableParser.handle_endtag (v2). -/
def handleEndV2 (s : PState) (tag : String) : PState :=
  if tag == "table" && s.in_table then { s with in_table := false, in_tbody := false }
  else if tag == "tbody" then { s with in_tbody := false }
  else if tag == "tr" && s.in_row then
    let s := { s with in_row := false }
    if truthyStr s.current_reactor.name then
      { s with reactors := s.reactors ++ [s.current_reactor] }
    else s
  else if tag == "td" && s.in_cell then
    let data := pyStrip s.current_data
    { s with in_cell := false,
             current_reactor := mapCellV2 s.cell_index data s.current_reactor,
             cell_index := s.cell_index + 1 }
  else s

/-- IAEAReactorParser.handle_starttag (v1): a single if/elif chain. -/
def handleStartV1 (s : PState) (tag : String) (attrs : List (String × String)) : PState :=
  if tag == "table" && strContains (attrGet attrs "class" "") "tablesorter" then
    { s with in_table := true }
  else if s.in_table && tag == "tr" then
    { s with in_row := true, cell_index := 0, current_reactor := emptyRow }
  else if s.in_row && tag == "td" then { s with in_cell := true, current_data := "" }
  else if s.in_cell && tag == "a" then
    match findCurrentId (attrGet attrs "href" "").data with
    | some n => { s with current_reactor := { s.current_reactor with iaea_id := some n } }
    | none => s
  else s

/-- `try: field = int(...) except ValueError: field = None`, guarded by
    `if field == "capacity" and data` with the generic else branch (v1 cell 4). -/
def v1SetCapacity (data : String) : Option Int :=
  if data ≠ "" then parseCapacity data else none

/-- `data if data else None` (v1 generic cell assignment). -/
def v1CellText (data : String) : Option String :=
  if data ≠ "" then some data else none

/-- The field_map-based cell assignment of IAEAReactorParser.handle_endtag (v1). -/
def mapCellV1 (idx : Nat) (data : String) (r : PRow) : PRow :=
  if idx = 0 then { r with name := v1CellText data }
  else if idx = 1 then { r with country := v1CellText data }
  else if idx = 2 then { r with status := v1CellText data }
  else if idx = 3 then { r with reactor_type := v1CellText data }
  else if idx = 4 then { r with capacity := v1SetCapacity data }
  else if idx = 5 then { r with construction_start := v1CellText data }
  else if idx = 6 then { r with grid_connection := v1CellText data }
  else if idx = 7 then { r with commercial_operation := v1CellText data }
  else r

/-- IAEAReactorParser.handle_endtag (v1). -/
def handleEndV1 (s : PState) (tag : String) : PState :=
  if tag == "table" then { s with in_table := false }
  else if tag == "tr" && s.in_row then
    let s := { s with in_row := false }
    if truthyStr s.current_reactor.name then
      { s with reactors := s.reactors ++ [s.current_reactor] }
    else s
  else if tag == "td" && s.in_cell then
    let data := pyStrip s.current_data
    { s with in_cell := false,
             current_reactor := mapCellV1 s.cell_index data s.current_reactor,
             cell_index := s.cell_index + 1 }
  else s

def stepV2 (s : PState) (e : HEvent) : PState :=
  match e with
  | .start t a => handleStartV2 s t a
  | .close t => handleEndV2 s t
  | .text d => handleDataP s d

def stepV1 (s : PState) (e : HEvent) : PState :=
  match e with
  | .start t a => handleStartV1 s t a
  | .close t => handleEndV1 s t
  | .text d => handleDataP s d

/-- parser.feed(html) on an already-tokenized tag stream (v2). -/
def runV2 (evs : List HEvent) : PState := evs.foldl stepV2 initPState

/-- parser.feed(html) on an already-tokenized tag stream (v1). -/
def runV1 (evs : List HEvent) : PState := evs.foldl stepV1 initPState

/-- fetch_country_reactors: reactor["country"] / reactor["country_code"] are
    set on every parsed row before merging (v2). -/
def addCountry (cname ccode : String) (r : PRow) : PRow :=
  { r with country := some cname, country_code := some ccode }

/-- One canonical record of nuclear_power_plants.json (the fields the merge
    scripts read or write; Name and Country are required by the storage
    format but read through dict.get, so they stay optional here). -/
structure Reactor where
  Name : Option String := none
  Country : Option String := none
  IAEAId : Option Int := none
  Capacity : Option Int := none
  Status : Option String := none
  LastUpdatedAt : Option String := none
deriving DecidableEq

/-- map_status of fetch_iaea_data_v2.py: a fixed dict with the raw status as
    get's default. -/
def mapStatus (s : String) : String :=
  if s = "Operational" then "Operational"
  else if s = "Under Construction" then "Under Construction"
  else if s = "Permanent Shutdown" then "Shutdown"
  else if s = "Suspended Operation" then "Suspended Operation"
  else if s = "Suspended Construction" then "Suspended Construction"
  else if s = "Long-term Shutdown" then "Suspended Operation"
  else if s = "Planned" then "Planned"
  else s

/-- status_map.get(new_reactor.get("status"), new_reactor.get("status")) of
    update_local_data (v1): the key None falls through to the default. -/
def mapStatusV1 : Option String → Option String
  | none => none
  | some s =>
    some (if s = "Operational" then "Operational"
          else if s = "Under Construction" then "Under Construction"
          else if s = "Permanent Shutdown" then "Shutdown"
          else if s = "Suspended Operation" then "Suspended Operation"
          else s)

/-- existing_by_iaea holds exactly the records with a truthy IAEAId, later
    records overwriting earlier ones; get(iaea_id) then finds the last record
    whose (truthy) IAEAId equals the probe. -/
def pIaea (idOpt : Option Int) (r : Reactor) : Bool :=
  truthyInt r.IAEAId && decide (r.IAEAId = idOpt)

def findByIaea (d : List Reactor) (idOpt : Option Int) : Option Nat :=
  lastIdxWhere (pIaea idOpt) d

/-- f"{r.get('Name', '').lower()}_{r.get('Country', '').lower()}" (v2 key). -/
def rKey (r : Reactor) : String :=
  pyLower (r.Name.getD "") ++ "_" ++ pyLower (r.Country.getD "")

/-- name_key of the incoming record (v2): name and country are lowered first. -/
def iKey (inc : PRow) : String :=
  pyLower (inc.name.getD "") ++ "_" ++ pyLower (inc.country.getD "")

def findByName (d : List Reactor) (k : String) : Option Nat :=
  lastIdxWhere (fun r => rKey r == k) d

/-- existing_by_iaea.get(iaea_id) or existing_by_name.get(name_key) (v2);
    a found record is a nonempty dict, hence truthy. -/
def matchIdxV2 (d : List Reactor) (inc : PRow) : Option Nat :=
  match findByIaea d inc.iaea_id with
  | some i => some i
  | none => findByName d (iKey inc)

/-- existing_by_name of update_local_data (v1) is keyed by the lowered Name
    alone, over all records. -/
def matchIdxV1 (d : List Reactor) (inc : PRow) : Option Nat :=
  match findByIaea d inc.iaea_id with
  | some i => some i
  | none =>
    lastIdxWhere (fun r => pyLower (r.Name.getD "") == pyLower (inc.name.getD "")) d

/-- `if new_capacity and existing.get("Capacity") != new_capacity` — shared by
    both mergers. -/
def capChanged (inc : PRow) (r : Reactor) : Prop :=
  truthyInt inc.capacity ∧ r.Capacity ≠ inc.capacity

instance (inc : PRow) (r : Reactor) : Decidable (capChanged inc r) := by
  unfold capChanged; infer_instance

def capStep (inc : PRow) (r : Reactor) : Reactor :=
  if capChanged inc r then { r with Capacity := inc.capacity } else r

/-- `if new_status and existing.get("Status") != new_status` with
    new_status = map_status(iaea_reactor.get("status", "")) (v2). -/
def statChangedV2 (inc : PRow) (r : Reactor) : Prop :=
  mapStatus (inc.status.getD "") ≠ "" ∧ r.Status ≠ some (mapStatus (inc.status.getD ""))

instance (inc : PRow) (r : Reactor) : Decidable (statChangedV2 inc r) := by
  unfold statChangedV2; infer_instance

def statStepV2 (inc : PRow) (r : Reactor) : Reactor :=
  if statChangedV2 inc r then { r with Status := some (mapStatus (inc.status.getD "")) } else r

/-- `if iaea_id and not existing.get("IAEAId")` (v2 only). -/
def idChanged (inc : PRow) (r : Reactor) : Prop :=
  truthyInt inc.iaea_id ∧ ¬ truthyInt r.IAEAId

instance (inc : PRow) (r : Reactor) : Decidable (idChanged inc r) := by
  unfold idChanged; infer_instance

def idStep (inc : PRow) (r : Reactor) : Reactor :=
  if idChanged inc r then { r with IAEAId := inc.iaea_id } else r

/-- The field updates of the matched branch of merge_with_existing (v2),
    in program order. -/
def updateCoreV2 (inc : PRow) (r : Reactor) : Reactor :=
  idStep inc (statStepV2 inc (capStep inc r))

/-- `changed` after the three update blocks of merge_with_existing (v2): each
    condition is evaluated on the record as already mutated by the earlier
    blocks. -/
def changedV2 (inc : PRow) (r : Reactor) : Bool :=
  decide (capChanged inc r) || decide (statChangedV2 inc (capStep inc r)) ||
    decide (idChanged inc (statStepV2 inc (capStep inc r)))

/-- The whole matched branch of merge_with_existing (v2): mutate the fields,
    and stamp LastUpdatedAt only `if changed`. -/
def updateV2 (now : String) (inc : PRow) (r : Reactor) : Reactor × Bool :=
  if changedV2 inc r then ({ updateCoreV2 inc r with LastUpdatedAt := some now }, true)
  else (updateCoreV2 inc r, false)

/-- `if new_status and existing.get("Status") != new_status` with
    new_status = status_map.get(...) (v1); both sides are optional strings. -/
def statChangedV1 (inc : PRow) (r : Reactor) : Prop :=
  truthyStr (mapStatusV1 inc.status) ∧ r.Status ≠ mapStatusV1 inc.status

instance (inc : PRow) (r : Reactor) : Decidable (statChangedV1 inc r) := by
  unfold statChangedV1; infer_instance

def statStepV1 (inc : PRow) (r : Reactor) : Reactor :=
  if statChangedV1 inc r then { r with Status := mapStatusV1 inc.status } else r

/-- updated_count contributions of one matched record (v1 counts per field). -/
def countV1 (inc : PRow) (r : Reactor) : Nat :=
  (if capChanged inc r then 1 else 0) + (if statChangedV1 inc (capStep inc r) then 1 else 0)

/-- The whole matched branch of update_local_data (v1): capacity and status
    updates, then LastUpdatedAt is stamped unconditionally. -/
def updateV1 (now : String) (inc : PRow) (r : Reactor) : Reactor × Nat :=
  ({ statStepV1 inc (capStep inc r) with LastUpdatedAt := some now }, countV1 inc r)

structure MStats where
  updated : Nat := 0
  newCount : Nat := 0
  matched : Nat := 0
deriving DecidableEq

/-- One iteration of the merge loop of merge_with_existing (v2).  The lookup
    indexes are built once from the initial record list; records are mutated
    in place, modelled by List.set at the index the lookup returned. -/
def mergeStepV2 (lookup : PRow → Option Nat) (now : String)
    (acc : List Reactor × MStats) (inc : PRow) : List Reactor × MStats :=
  match lookup inc with
  | some i =>
    match acc.1[i]? with
    | some r =>
      let u := updateV2 now inc r
      (acc.1.set i u.1,
       { acc.2 with matched := acc.2.matched + 1,
                    updated := acc.2.updated + (if u.2 then 1 else 0) })
    | none => (acc.1, { acc.2 with matched := acc.2.matched + 1 })
  | none => (acc.1, { acc.2 with newCount := acc.2.newCount + 1 })

/-- merge_with_existing (v2) on already-loaded data, returning the mutated
    record list and the stats dict. -/
def mergeV2 (now : String) (incs : List PRow) (d : List Reactor) : List Reactor × MStats :=
  incs.foldl (mergeStepV2 (matchIdxV2 d) now) (d, {})

/-- One iteration of the merge loop of update_local_data (v1); the pair of
    counters is (updated_count, new_count). -/
def mergeStepV1 (lookup : PRow → Option Nat) (now : String)
    (acc : List Reactor × Nat × Nat) (inc : PRow) : List Reactor × Nat × Nat :=
  match lookup inc with
  | some i =>
    match acc.1[i]? with
    | some r =>
      let u := updateV1 now inc r
      (acc.1.set i u.1, acc.2.1 + u.2, acc.2.2)
    | none => acc
  | none => (acc.1, acc.2.1, acc.2.2 + 1)

/-- update_local_data (v1) on already-loaded data. -/
def mergeV1 (now : String) (incs : List PRow) (d : List Reactor) : List Reactor × Nat × Nat :=
  incs.foldl (mergeStepV1 (matchIdxV1 d) now) (d, 0, 0)

/-- Does a character-list suffix match the whole of
    `[-\s]*(Unit\s*)?\d+` (case-insensitively for "Unit")? -/
def suffMatch (l : List Char) : Bool :=
  let l1 := l.dropWhile (fun c => c == '-' || isSpaceChar c)
  (decide (l1 ≠ []) && l1.all Char.isDigit) ||
    (startsWith ['u', 'n', 'i', 't'] (l1.map lowerChar) &&
      (let l2 := (l1.drop 4).dropWhile isSpaceChar
       decide (l2 ≠ []) && l2.all Char.isDigit))

/-- The leftmost position whose suffix matches the unit-designator pattern:
    re.search scans start positions left to right, and the pattern is
    anchored at the end of the string. -/
def findCut : List Char → Option Nat
  | [] => none
  | l@(_ :: t) => if suffMatch l then some 0 else (findCut t).map (· + 1)

/-- re.sub(r'[-\s]*(Unit\s*)?\d+$', '', name, flags=re.IGNORECASE).strip():
    the base plant name used as the enrichment cache key. -/
def baseName (s : String) : String :=
  pyStrip (String.mk (match findCut s.data with
                      | some i => s.data.take i
                      | none => s.data))

/-- The result dict of get_page_info: the extract defaults to "" inside
    get_page_info, the other values can be absent. -/
structure WikiInfo where
  title : Option String := none
  url : Option String := none
  extract : String := ""
  thumbnail : Option String := none
deriving DecidableEq

/-- One reactor object as read and written by enrich_wikipedia.enrich_reactors. -/
structure EReactor where
  Name : Option String := none
  WikipediaUrl : Option String := none
  WikipediaTitle : Option String := none
  WikipediaExtract : Option String := none
  WikipediaThumbnail : Option String := none
deriving DecidableEq

/-- The four assignments made when a wiki_info dict is applied to a reactor
    (extract and thumbnail only when truthy). -/
def applyWiki (wi : WikiInfo) (r : EReactor) : EReactor :=
  let r := { r with WikipediaUrl := wi.url, WikipediaTitle := wi.title }
  let r := if wi.extract ≠ "" then { r with WikipediaExtract := some wi.extract } else r
  if truthyStr wi.thumbnail then { r with WikipediaThumbnail := wi.thumbnail } else r

/-- plant_cache as an insertion-ordered association list: a stored value of
    none is the explicit negative marker (find_reactor_wikipedia returned
    None); an absent key means the plant was never looked up. -/
def cacheFind (c : List (String × Option WikiInfo)) (k : String) : Option (Option WikiInfo) :=
  match c with
  | [] => none
  | (k', v) :: t => if k' == k then some v else cacheFind t k

/-- The run state of enrich_wikipedia.enrich_reactors.  snaps records each
    json.dump progress write as (items processed so far, dumped list);
    lookupLog records the cache key of every find_reactor_wikipedia call. -/
structure WState where
  reactors : List EReactor := []
  cache : List (String × Option WikiInfo) := []
  enriched : Nat := 0
  snaps : List (Nat × List EReactor) := []
  lookupLog : List String := []
deriving DecidableEq

/-- One iteration of the for-loop of enrich_wikipedia.enrich_reactors:
    a cache hit applies the cached resolution and continues (skipping the
    progress-save check); a miss calls the collaborator (modelled by the
    oracle), stores the result under the base name, applies it, and then
    saves progress when (i + 1) % 50 == 0. -/
def wikiStep (oracle : EReactor → Option WikiInfo) (s : WState) (i : Nat) : WState :=
  match s.reactors[i]? with
  | none => s
  | some r =>
    let base := baseName (r.Name.getD "")
    match cacheFind s.cache base with
    | some wi =>
      match wi with
      | some info =>
        { s with reactors := s.reactors.set i (applyWiki info r), enriched := s.enriched + 1 }
      | none => s
    | none =>
      let wi := oracle r
      let s := { s with lookupLog := s.lookupLog ++ [base], cache := s.cache ++ [(base, wi)] }
      let s :=
        match wi with
        | some info =>
          { s with reactors := s.reactors.set i (applyWiki info r), enriched := s.enriched + 1 }
        | none => s
      if (i + 1) % 50 = 0 then { s with snaps := s.snaps ++ [(i + 1, s.reactors)] } else s

def initWState (rs : List EReactor) : WState := { reactors := rs }

/-- The state after the first n iterations of the for-loop. -/
def wikiLoopN (oracle : EReactor → Option WikiInfo) (rs : List EReactor) (n : Nat) : WState :=
  (List.range n).foldl (wikiStep oracle) (initWState rs)

/-- enrich_wikipedia.enrich_reactors on loaded data: the whole loop followed
    by the unconditional final json.dump. -/
def wikiEnrich (oracle : EReactor → Option WikiInfo) (rs : List EReactor) : WState :=
  let s := wikiLoopN oracle rs rs.length
  { s with snaps := s.snaps ++ [(rs.length, s.reactors)] }

/-- The derived cache keys of a list of input rows. -/
def baseKeys (rs : List EReactor) : List String :=
  rs.map (fun r => baseName (r.Name.getD ""))

/- ---------- concrete inputs used by the claim theorems ---------- -/

def c1Canon : List Reactor :=
  [{ Name := some "a", Country := some "x", Capacity := some 100,
     Status := some "Operational" }]

def c1IncA : PRow := { name := some "a", country := some "x", capacity := some 100 }

def c1IncB : PRow := { name := some "a", country := some "x", capacity := some 200 }

def c2Rec : Reactor :=
  { Name := some "n", Country := some "c", Capacity := some 500,
    Status := some "Operational", LastUpdatedAt := some "T0" }

def c9Canon : List Reactor :=
  [{ Name := some "A", Country := some "x", Capacity := some 100,
     Status := some "Operational", LastUpdatedAt := some "T0" }]

def c9Inc : PRow := { name := some "A", capacity := some 100, status := some "Operational" }

def c3Rec : Reactor := { Name := some "Alpha", Country := some "Germany" }

def c3Canon : List Reactor := [c3Rec]

def c3Inc : PRow := { name := some "Alpha", country := some "France" }

def c3IdCanon : List Reactor :=
  [{ Name := some "Zeta", Country := some "Japan", IAEAId := some 7 }]

def c3IdInc : PRow := { name := some "Other", country := some "Elsewhere", iaea_id := some 7 }

def c8Inc : PRow := { name := some "zzz", country := some "nowhere", capacity := some 42 }

/-- Seven plain cells of one v2 fixture table row. -/
def row7 (nm ty st loc ref cap grid : String) : List HEvent :=
  [.start "tr" [], .start "td" [], .text nm, .close "td",
   .start "td" [], .text ty, .close "td",
   .start "td" [], .text st, .close "td",
   .start "td" [], .text loc, .close "td",
   .start "td" [], .text ref, .close "td",
   .start "td" [], .text cap, .close "td",
   .start "td" [], .text grid, .close "td",
   .close "tr"]

/-- A fixture tag stream: one tablesorter table with three well-formed rows
    (the first carrying a hypReactorName link) and one malformed nameless
    row, plus stray mismatched close tags that a parser must tolerate. -/
def c4Events : List HEvent :=
  [.start "table" [("class", "tablesorter reactors")], .start "tbody" []]
  ++ [.start "tr" [], .start "td" [],
      .start "a" [("id", "MainContent_MainContent_rptCountryReactors_hypReactorName_0")],
      .text "Alpha 1", .close "a", .close "td",
      .start "td" [], .text " PWR ", .close "td",
      .start "td" [], .text "Operational", .close "td",
      .start "td" [], .text "North", .close "td",
      .start "td" [], .text "950", .close "td",
      .start "td" [], .text "1,000", .close "td",
      .start "td" [], .text "1985", .close "td", .close "tr"]
  ++ row7 "Beta" "BWR" "Permanent Shutdown" "South" "600" "640" "1975"
  ++ [.close "td"]
  ++ row7 "" "PWR" "Operational" "East" "100" "110" "1999"
  ++ row7 "Gamma 2" "PHWR" "Operational" "West" "700" "n/a" "2001"
  ++ [.close "tbody", .close "table", .close "tr"]

/-- The three rows the v2 extractor must emit for c4Events. -/
def c4Expected : List PRow :=
  [{ name := some "Alpha 1", reactor_type := some "PWR", status := some "Operational",
     location := some "North", capacity := some 1000, grid_connection := some "1985",
     row_index := some 0 },
   { name := some "Beta", reactor_type := some "BWR", status := some "Permanent Shutdown",
     location := some "South", capacity := some 640, grid_connection := some "1975" },
   { name := some "Gamma 2", reactor_type := some "PHWR", status := some "Operational",
     location := some "West", grid_connection := some "2001" }]

def c10Inc : PRow :=
  addCountry "France" "FR"
    { name := some "Alpha 1", reactor_type := some "PWR", status := some "Operational",
      location := some "North", capacity := some 1000, grid_connection := some "1985",
      row_index := some 0 }

/-- 51 input rows that all share the derived base key "ax". -/
def c5Rows : List EReactor := List.replicate 51 { Name := some "ax" }

/-- 50 input rows with pairwise distinct derived base keys. -/
def c5Rows50 : List EReactor :=
  (List.range 50).map (fun i => { Name := some ("r" ++ Nat.repr i ++ "x") })

/- ---------- list helper lemmas ---------- -/

theorem getq_lt {l : List α} {i : Nat} {x : α} (h : l[i]? = some x) : i < l.length := by
  induction l generalizing i with
  | nil => simp at h
  | cons a t ih =>
    cases i with
    | zero => simp
    | succ j =>
      simp only [List.getElem?_cons_succ] at h
      simpa [Nat.succ_lt_succ_iff] using ih h

theorem getq_set_self {l : List α} {i : Nat} (x : α) (h : i < l.length) :
    (l.set i x)[i]? = some x := by
  induction l generalizing i with
  | nil => simp at h
  | cons a t ih =>
    cases i with
    | zero => simp
    | succ j =>
      simp only [List.set_cons_succ, List.getElem?_cons_succ]
      exact ih (by simpa [Nat.succ_lt_succ_iff] using h)

theorem getq_set_ne {l : List α} {i j : Nat} (x : α) (h : i ≠ j) :
    (l.set i x)[j]? = l[j]? := by
  induction l generalizing i j with
  | nil => simp
  | cons a t ih =>
    cases i with
    | zero =>
      cases j with
      | zero => exact absurd rfl h
      | succ k => simp
    | succ i' =>
      cases j with
      | zero => simp
      | succ k =>
        simp only [List.set_cons_succ, List.getElem?_cons_succ]
        exact ih (by omega)

theorem set_getq_same {l : List α} {i : Nat} {x : α} (h : l[i]? = some x) :
    l.set i x = l := by
  induction l generalizing i with
  | nil => simp
  | cons a t ih =>
    cases i with
    | zero => simp_all
    | succ j =>
      simp only [List.getElem?_cons_succ] at h
      simp [List.set_cons_succ, ih h]

theorem length_set' (l : List α) (i : Nat) (x : α) : (l.set i x).length = l.length :=
  List.length_set l i x

/- ---------- lastIdxWhere theory ---------- -/

theorem liw_congr {p : α → Bool} {q : β → Bool} {l₁ : List α} {l₂ : List β}
    (h : ∀ i : Nat, (l₁[i]?).map p = (l₂[i]?).map q) :
    lastIdxWhere p l₁ = lastIdxWhere q l₂ := by
  induction l₁ generalizing l₂ with
  | nil =>
    cases l₂ with
    | nil => rfl
    | cons b t => simpa using h 0
  | cons a t ih =>
    cases l₂ with
    | nil => simpa using h 0
    | cons b t' =>
      have h0 : p a = q b := by simpa using h 0
      have ht : lastIdxWhere p t = lastIdxWhere q t' := ih (fun i => by simpa using h (i + 1))
      simp only [lastIdxWhere, ht, h0]

theorem liw_some {p : α → Bool} {l : List α} {i : Nat} (h : lastIdxWhere p l = some i) :
    ∃ x, l[i]? = some x ∧ p x = true := by
  induction l generalizing i with
  | nil => simp [lastIdxWhere] at h
  | cons a t ih =>
    simp only [lastIdxWhere] at h
    cases hh : lastIdxWhere p t with
    | some j =>
      rw [hh] at h
      obtain ⟨x, hx, hp⟩ := ih hh
      cases h
      exact ⟨x, by simpa using hx, hp⟩
    | none =>
      rw [hh] at h
      by_cases hp : p a = true
      · simp [hp] at h
        cases h
        exact ⟨a, by simp, hp⟩
      · simp [hp] at h

theorem liw_none {p : α → Bool} {l : List α} (h : lastIdxWhere p l = none) :
    ∀ (i : Nat) (x : α), l[i]? = some x → p x = false := by
  induction l with
  | nil => intro i x hx; simp at hx
  | cons a t ih =>
    intro i x hx
    simp only [lastIdxWhere] at h
    cases hh : lastIdxWhere p t with
    | some j => rw [hh] at h; cases h
    | none =>
      rw [hh] at h
      by_cases hp : p a = true
      · simp [hp] at h
      · cases i with
        | zero => simp at hx; subst hx; simpa using hp
        | succ j =>
          simp only [List.getElem?_cons_succ] at hx
          exact ih hh j x hx

theorem liw_none_of {p : α → Bool} {l : List α}
    (h : ∀ (i : Nat) (x : α), l[i]? = some x → p x = false) : lastIdxWhere p l = none := by
  induction l with
  | nil => rfl
  | cons a t ih =>
    have ht : lastIdxWhere p t = none := ih (fun i x hx => h (i + 1) x (by simpa using hx))
    have ha : p a = false := h 0 a (by simp)
    simp [lastIdxWhere, ht, ha]

theorem liw_last {p : α → Bool} {l : List α} {i : Nat} {x : α}
    (hx : l[i]? = some x) (hp : p x = true)
    (hlast : ∀ (j : Nat) (y : α), i < j → l[j]? = some y → p y = false) :
    lastIdxWhere p l = some i := by
  induction l generalizing i with
  | nil => simp at hx
  | cons a t ih =>
    cases i with
    | zero =>
      simp only [List.getElem?_cons_zero, Option.some_inj] at hx
      subst hx
      have ht : lastIdxWhere p t = none :=
        liw_none_of (fun j y hy => hlast (j + 1) y (Nat.succ_pos j) (by simpa using hy))
      simp [lastIdxWhere, ht, hp]
    | succ i' =>
      simp only [List.getElem?_cons_succ] at hx
      have ht : lastIdxWhere p t = some i' :=
        ih hx (fun j y hj hy => hlast (j + 1) y (by omega) (by simpa using hy))
      simp [lastIdxWhere, ht]

/- ---------- facts about the matched-branch field updates ---------- -/

@[simp] theorem capStep_Name (inc : PRow) (r : Reactor) : (capStep inc r).Name = r.Name := by
  unfold capStep; split <;> rfl

@[simp] theorem capStep_Country (inc : PRow) (r : Reactor) :
    (capStep inc r).Country = r.Country := by
  unfold capStep; split <;> rfl

@[simp] theorem capStep_Status (inc : PRow) (r : Reactor) :
    (capStep inc r).Status = r.Status := by
  unfold capStep; split <;> rfl

@[simp] theorem capStep_IAEAId (inc : PRow) (r : Reactor) :
    (capStep inc r).IAEAId = r.IAEAId := by
  unfold capStep; split <;> rfl

@[simp] theorem capStep_Last (inc : PRow) (r : Reactor) :
    (capStep inc r).LastUpdatedAt = r.LastUpdatedAt := by
  unfold capStep; split <;> rfl

theorem capStep_Capacity (inc : PRow) (r : Reactor) :
    (capStep inc r).Capacity = if capChanged inc r then inc.capacity else r.Capacity := by
  unfold capStep; split <;> simp_all

@[simp] theorem statStepV2_Name (inc : PRow) (r : Reactor) :
    (statStepV2 inc r).Name = r.Name := by
  unfold statStepV2; split <;> rfl

@[simp] theorem statStepV2_Country (inc : PRow) (r : Reactor) :
    (statStepV2 inc r).Country = r.Country := by
  unfold statStepV2; split <;> rfl

@[simp] theorem statStepV2_Capacity (inc : PRow) (r : Reactor) :
    (statStepV2 inc r).Capacity = r.Capacity := by
  unfold statStepV2; split <;> rfl

@[simp] theorem statStepV2_IAEAId (inc : PRow) (r : Reactor) :
    (statStepV2 inc r).IAEAId = r.IAEAId := by
  unfold statStepV2; split <;> rfl

@[simp] theorem statStepV2_Last (inc : PRow) (r : Reactor) :
    (statStepV2 inc r).LastUpdatedAt = r.LastUpdatedAt := by
  unfold statStepV2; split <;> rfl

theorem statStepV2_Status (inc : PRow) (r : Reactor) :
    (statStepV2 inc r).Status =
      if statChangedV2 inc r then some (mapStatus (inc.status.getD "")) else r.Status := by
  unfold statStepV2; split <;> simp_all

@[simp] theorem idStep_Name (inc : PRow) (r : Reactor) : (idStep inc r).Name = r.Name := by
  unfold idStep; split <;> rfl

@[simp] theorem idStep_Country (inc : PRow) (r : Reactor) :
    (idStep inc r).Country = r.Country := by
  unfold idStep; split <;> rfl

@[simp] theorem idStep_Capacity (inc : PRow) (r : Reactor) :
    (idStep inc r).Capacity = r.Capacity := by
  unfold idStep; split <;> rfl

@[simp] theorem idStep_Status (inc : PRow) (r : Reactor) :
    (idStep inc r).Status = r.Status := by
  unfold idStep; split <;> rfl

@[simp] theorem idStep_Last (inc : PRow) (r : Reactor) :
    (idStep inc r).LastUpdatedAt = r.LastUpdatedAt := by
  unfold idStep; split <;> rfl

theorem idStep_IAEAId (inc : PRow) (r : Reactor) :
    (idStep inc r).IAEAId = if idChanged inc r then inc.iaea_id else r.IAEAId := by
  unfold idStep; split <;> simp_all

/-- capChanged only reads the Capacity field. -/
theorem capChanged_iff (inc : PRow) (r : Reactor) :
    capChanged inc r ↔ truthyInt inc.capacity = true ∧ r.Capacity ≠ inc.capacity := Iff.rfl

/-- statChangedV2 only reads the Status field. -/
theorem statChangedV2_of_Status {inc : PRow} {r r' : Reactor} (h : r'.Status = r.Status) :
    statChangedV2 inc r' ↔ statChangedV2 inc r := by
  unfold statChangedV2; rw [h]

/-- idChanged only reads the IAEAId field. -/
theorem idChanged_of_IAEAId {inc : PRow} {r r' : Reactor} (h : r'.IAEAId = r.IAEAId) :
    idChanged inc r' ↔ idChanged inc r := by
  unfold idChanged; rw [h]

theorem updateCoreV2_Name (inc : PRow) (r : Reactor) :
    (updateCoreV2 inc r).Name = r.Name := by simp [updateCoreV2]

theorem updateCoreV2_Country (inc : PRow) (r : Reactor) :
    (updateCoreV2 inc r).Country = r.Country := by simp [updateCoreV2]

theorem updateCoreV2_Last (inc : PRow) (r : Reactor) :
    (updateCoreV2 inc r).LastUpdatedAt = r.LastUpdatedAt := by simp [updateCoreV2]

theorem updateCoreV2_Capacity (inc : PRow) (r : Reactor) :
    (updateCoreV2 inc r).Capacity = if capChanged inc r then inc.capacity else r.Capacity := by
  simp [updateCoreV2, capStep_Capacity]

theorem updateCoreV2_Status (inc : PRow) (r : Reactor) :
    (updateCoreV2 inc r).Status =
      if statChangedV2 inc r then some (mapStatus (inc.status.getD "")) else r.Status := by
  simp only [updateCoreV2, idStep_Status, statStepV2_Status, statChangedV2, capStep_Status]

theorem updateCoreV2_IAEAId (inc : PRow) (r : Reactor) :
    (updateCoreV2 inc r).IAEAId = if idChanged inc r then inc.iaea_id else r.IAEAId := by
  simp only [updateCoreV2, idStep_IAEAId, statStepV2_IAEAId, capStep_IAEAId, idChanged]

/-- The record returned by the matched branch (v2): LastUpdatedAt is stamped
    exactly when changed, the other fields come from updateCoreV2. -/
theorem updateV2_fst (now : String) (inc : PRow) (r : Reactor) :
    (updateV2 now inc r).1 =
      if changedV2 inc r then { updateCoreV2 inc r with LastUpdatedAt := some now }
      else updateCoreV2 inc r := by
  unfold updateV2; split <;> simp_all

theorem updateV2_snd (now : String) (inc : PRow) (r : Reactor) :
    (updateV2 now inc r).2 = changedV2 inc r := by
  unfold updateV2; split <;> simp_all

theorem updateV2_fst_Name (now : String) (inc : PRow) (r : Reactor) :
    ((updateV2 now inc r).1).Name = r.Name := by
  rw [updateV2_fst]; split <;> simp [updateCoreV2_Name]

theorem updateV2_fst_Country (now : String) (inc : PRow) (r : Reactor) :
    ((updateV2 now inc r).1).Country = r.Country := by
  rw [updateV2_fst]; split <;> simp [updateCoreV2_Country]

theorem updateV2_fst_Capacity (now : String) (inc : PRow) (r : Reactor) :
    ((updateV2 now inc r).1).Capacity =
      if capChanged inc r then inc.capacity else r.Capacity := by
  rw [updateV2_fst]; split <;> simp [updateCoreV2_Capacity]

theorem updateV2_fst_Status (now : String) (inc : PRow) (r : Reactor) :
    ((updateV2 now inc r).1).Status =
      if statChangedV2 inc r then some (mapStatus (inc.status.getD "")) else r.Status := by
  rw [updateV2_fst]; split <;> simp [updateCoreV2_Status]

theorem updateV2_fst_IAEAId (now : String) (inc : PRow) (r : Reactor) :
    ((updateV2 now inc r).1).IAEAId =
      if idChanged inc r then inc.iaea_id else r.IAEAId := by
  rw [updateV2_fst]; split <;> simp [updateCoreV2_IAEAId]

theorem statChangedV2_capStep (inc : PRow) (r : Reactor) :
    statChangedV2 inc (capStep inc r) ↔ statChangedV2 inc r :=
  statChangedV2_of_Status (capStep_Status inc r)

theorem idChanged_after_steps (inc : PRow) (r : Reactor) :
    idChanged inc (statStepV2 inc (capStep inc r)) ↔ idChanged inc r :=
  idChanged_of_IAEAId (by simp)

/-- `changed` is set (v2) iff one of the three field conditions held on the
    original record. -/
theorem changedV2_iff (inc : PRow) (r : Reactor) :
    changedV2 inc r = true ↔ capChanged inc r ∨ statChangedV2 inc r ∨ idChanged inc r := by
  simp only [changedV2, Bool.or_eq_true, decide_eq_true_eq, statChangedV2_capStep,
    idChanged_after_steps]
  tauto

theorem updateCoreV2_id_of_unchanged {inc : PRow} {r : Reactor}
    (h : changedV2 inc r = false) : updateCoreV2 inc r = r := by
  have h' : ¬ (capChanged inc r ∨ statChangedV2 inc r ∨ idChanged inc r) := by
    rw [← changedV2_iff]; simp [h]
  push_neg at h'
  obtain ⟨h1, h2, h3⟩ := h'
  unfold updateCoreV2
  rw [show capStep inc r = r by unfold capStep; exact if_neg h1]
  rw [show statStepV2 inc r = r by unfold statStepV2; exact if_neg h2]
  unfold idStep; exact if_neg h3

/-- A matched record with nothing to change is returned untouched with
    changed = False (v2). -/
theorem updateV2_unchanged {inc : PRow} {r : Reactor} (now : String)
    (h : changedV2 inc r = false) : updateV2 now inc r = (r, false) := by
  unfold updateV2
  rw [h]
  simp [updateCoreV2_id_of_unchanged h]

/-- Applying the matched branch (v2) a second time with the same incoming
    record changes nothing and reports changed = False. -/
theorem updateV2_idem (now now2 : String) (inc : PRow) (r : Reactor) :
    updateV2 now2 inc (updateV2 now inc r).1 = ((updateV2 now inc r).1, false) := by
  have hcap : ¬ capChanged inc ((updateV2 now inc r).1) := by
    by_cases h : truthyInt inc.capacity = true
    · have hc : ((updateV2 now inc r).1).Capacity = inc.capacity := by
        rw [updateV2_fst_Capacity]
        split
        · rfl
        · rename_i hnc
          have : r.Capacity = inc.capacity := by
            by_contra hne
            exact hnc ⟨h, hne⟩
          exact this
      intro hcc
      exact hcc.2 hc
    · intro hcc
      exact h hcc.1
  have hstat : ¬ statChangedV2 inc ((updateV2 now inc r).1) := by
    by_cases h : mapStatus (inc.status.getD "") = ""
    · intro hsc
      exact hsc.1 h
    · have hs : ((updateV2 now inc r).1).Status = some (mapStatus (inc.status.getD "")) := by
        rw [updateV2_fst_Status]
        split
        · rfl
        · rename_i hns
          by_contra hne
          exact hns ⟨h, fun heq => hne heq⟩
      intro hsc
      exact hsc.2 hs
  have hid : ¬ idChanged inc ((updateV2 now inc r).1) := by
    by_cases h : truthyInt inc.iaea_id = true
    · have hi : truthyInt (((updateV2 now inc r).1).IAEAId) = true := by
        rw [updateV2_fst_IAEAId]
        split
        · exact h
        · rename_i hni
          by_contra hne
          exact hni ⟨h, fun ht => hne ht⟩
      intro hic
      exact hic.2 hi
    · intro hic
      exact h hic.1
  have hch : changedV2 inc ((updateV2 now inc r).1) = false := by
    rw [Bool.eq_false_iff]
    intro ht
    rcases (changedV2_iff _ _).mp ht with h | h | h
    · exact hcap h
    · exact hstat h
    · exact hid h
  exact updateV2_unchanged now2 hch

theorem liw_set_congr {p : α → Bool} {d : List α} {i : Nat} {r r' : α}
    (hget : d[i]? = some r) (hp : p r' = p r) :
    lastIdxWhere p (d.set i r') = lastIdxWhere p d := by
  apply liw_congr
  intro j
  by_cases hij : i = j
  · subst hij
    rw [getq_set_self r' (getq_lt hget), hget]
    simp [hp]
  · rw [getq_set_ne r' hij]

theorem matchIdxV2_lt {d : List Reactor} {inc : PRow} {i : Nat}
    (hm : matchIdxV2 d inc = some i) : i < d.length := by
  unfold matchIdxV2 at hm
  cases hia : findByIaea d inc.iaea_id with
  | some j =>
    rw [hia] at hm
    simp only [Option.some_inj] at hm
    subst hm
    obtain ⟨x, hx, _⟩ := liw_some hia
    exact getq_lt hx
  | none =>
    rw [hia] at hm
    obtain ⟨x, hx, _⟩ := liw_some hm
    exact getq_lt hx

/-- Re-running the lookup after the matched record was mutated in place finds
    the same index again: the v2 update never changes Name or Country, and it
    changes IAEAId only by backfilling the incoming id, which then itself is
    matched (and no other record carried that id, or the name fallback would
    not have been consulted on the first run). -/
theorem matchIdxV2_stable {d : List Reactor} {inc : PRow} {i : Nat} {r : Reactor} (now : String)
    (hget : d[i]? = some r) (hm : matchIdxV2 d inc = some i) :
    matchIdxV2 (d.set i (updateV2 now inc r).1) inc = some i := by
  set r' := (updateV2 now inc r).1 with hr'
  unfold matchIdxV2 at hm ⊢
  cases hia : findByIaea d inc.iaea_id with
  | some j =>
    rw [hia] at hm
    have hj : j = i := by simpa using hm
    subst hj
    obtain ⟨x, hx, hpx⟩ := liw_some hia
    have hxr : x = r := Option.some_inj.mp (hx.symm.trans hget)
    rw [hxr] at hpx
    have htr : truthyInt r.IAEAId = true := by
      simp only [pIaea, Bool.and_eq_true] at hpx
      exact hpx.1
    have hIA : r'.IAEAId = r.IAEAId := by
      rw [hr', updateV2_fst_IAEAId, if_neg]
      intro hic
      exact hic.2 htr
    have hp : pIaea inc.iaea_id r' = pIaea inc.iaea_id r := by
      simp only [pIaea, hIA]
    have hfind : findByIaea (d.set j r') inc.iaea_id = some j := by
      unfold findByIaea
      rw [liw_set_congr hget hp]
      exact hia
    rw [hfind]
  | none =>
    rw [hia] at hm
    have hm' : findByName d (iKey inc) = some i := hm
    have hnm : rKey r' = rKey r := by
      unfold rKey
      rw [hr', updateV2_fst_Name, updateV2_fst_Country]
    have hpn : (rKey r' == iKey inc) = (rKey r == iKey inc) := by rw [hnm]
    have hname : findByName (d.set i r') (iKey inc) = some i := by
      unfold findByName
      rw [liw_set_congr hget hpn]
      exact hm'
    by_cases hidc : idChanged inc r
    case pos =>
      have hIA : r'.IAEAId = inc.iaea_id := by rw [hr', updateV2_fst_IAEAId, if_pos hidc]
      have hfind : findByIaea (d.set i r') inc.iaea_id = some i := by
        unfold findByIaea
        apply liw_last (getq_set_self r' (getq_lt hget))
        · simp [pIaea, hIA, hidc.1]
        · intro j y hj hy
          have hne : i ≠ j := by omega
          rw [getq_set_ne r' hne] at hy
          exact liw_none hia j y hy
      rw [hfind]
    case neg =>
      have hIA : r'.IAEAId = r.IAEAId := by rw [hr', updateV2_fst_IAEAId, if_neg hidc]
      have hp : pIaea inc.iaea_id r' = pIaea inc.iaea_id r := by
        simp only [pIaea, hIA]
      have hfind : findByIaea (d.set i r') inc.iaea_id = none := by
        unfold findByIaea
        rw [liw_set_congr hget hp]
        exact hia
      rw [hfind]
      exact hname

theorem mergeStepV2_matched {lookup : PRow → Option Nat} {now : String}
    {acc : List Reactor × MStats} {inc : PRow} {i : Nat} {r : Reactor}
    (hl : lookup inc = some i) (hg : acc.1[i]? = some r) :
    mergeStepV2 lookup now acc inc =
      (acc.1.set i (updateV2 now inc r).1,
       { acc.2 with matched := acc.2.matched + 1,
                    updated := acc.2.updated + (if (updateV2 now inc r).2 then 1 else 0) }) := by
  unfold mergeStepV2
  rw [hl]
  dsimp only
  rw [hg]

theorem mergeStepV2_nomatch {lookup : PRow → Option Nat} {now : String}
    {acc : List Reactor × MStats} {inc : PRow} (hl : lookup inc = none) :
    mergeStepV2 lookup now acc inc = (acc.1, { acc.2 with newCount := acc.2.newCount + 1 }) := by
  unfold mergeStepV2
  rw [hl]

theorem mergeV2_single (now : String) (inc : PRow) (d : List Reactor) :
    mergeV2 now [inc] d = mergeStepV2 (matchIdxV2 d) now (d, {}) inc := rfl

/- ---------- C1 ---------- -/

/-- C1 fails as stated: when two byte-identical incoming records reconcile
    into the same canonical record with conflicting capacities, a second run
    of merge_with_existing over the already-reconciled set still reports two
    updated records (each pass flips the capacity back and forth), not zero. -/
theorem C1_counterexample :
    (mergeV2 "T2" [c1IncA, c1IncB] (mergeV2 "T1" [c1IncA, c1IncB] c1Canon).1).2.updated = 2 := by
  decide

/-- C1 (amended): reconciliation is idempotent per incoming record: for every
    canonical record set and every single incoming record, merging a second
    time with the byte-identical record against the already-reconciled set
    changes no record and reports an updated-count of zero. -/
theorem C1_single_record_idempotent (now now2 : String) (inc : PRow) (d0 : List Reactor) :
    (mergeV2 now2 [inc] (mergeV2 now [inc] d0).1).1 = (mergeV2 now [inc] d0).1 ∧
    (mergeV2 now2 [inc] (mergeV2 now [inc] d0).1).2.updated = 0 := by
  cases hm : matchIdxV2 d0 inc with
  | none =>
    have hd1 : (mergeV2 now [inc] d0).1 = d0 := by
      rw [mergeV2_single, mergeStepV2_nomatch hm]
    rw [hd1]
    rw [mergeV2_single, mergeStepV2_nomatch hm]
    exact ⟨rfl, rfl⟩
  | some i =>
    have hlt : i < d0.length := matchIdxV2_lt hm
    obtain ⟨r, hget⟩ : ∃ x, d0[i]? = some x := ⟨d0[i], List.getElem?_eq_getElem hlt⟩
    have hd1 : (mergeV2 now [inc] d0).1 = d0.set i (updateV2 now inc r).1 := by
      rw [mergeV2_single, mergeStepV2_matched hm hget]
    have hm2 : matchIdxV2 (d0.set i (updateV2 now inc r).1) inc = some i :=
      matchIdxV2_stable now hget hm
    have hg2 : (d0.set i (updateV2 now inc r).1)[i]? = some ((updateV2 now inc r).1) :=
      getq_set_self _ hlt
    have hrun2 := @mergeStepV2_matched (matchIdxV2 (d0.set i (updateV2 now inc r).1)) now2
      (d0.set i (updateV2 now inc r).1, {}) inc i ((updateV2 now inc r).1) hm2 hg2
    rw [hd1, mergeV2_single, hrun2, updateV2_idem]
    constructor
    · exact set_getq_same hg2
    · rfl

/- ---------- v1 update facts and C2 ---------- -/

@[simp] theorem statStepV1_Capacity (inc : PRow) (r : Reactor) :
    (statStepV1 inc r).Capacity = r.Capacity := by
  unfold statStepV1; split <;> rfl

@[simp] theorem statStepV1_Name (inc : PRow) (r : Reactor) :
    (statStepV1 inc r).Name = r.Name := by
  unfold statStepV1; split <;> rfl

theorem statStepV1_Status (inc : PRow) (r : Reactor) :
    (statStepV1 inc r).Status =
      if statChangedV1 inc r then mapStatusV1 inc.status else r.Status := by
  unfold statStepV1; split <;> simp_all

theorem updateV1_fst_Capacity (now : String) (inc : PRow) (r : Reactor) :
    ((updateV1 now inc r).1).Capacity =
      if capChanged inc r then inc.capacity else r.Capacity := by
  unfold updateV1
  simp [capStep_Capacity]

theorem updateV1_fst_Status (now : String) (inc : PRow) (r : Reactor) :
    ((updateV1 now inc r).1).Status =
      if statChangedV1 inc r then mapStatusV1 inc.status else r.Status := by
  unfold updateV1
  simp only [statStepV1_Status, statChangedV1, capStep_Status]

/-- update_local_data (v1) stamps LastUpdatedAt on every matched record. -/
theorem updateV1_fst_Last (now : String) (inc : PRow) (r : Reactor) :
    ((updateV1 now inc r).1).LastUpdatedAt = some now := rfl

/-- C2: no-erasure in both mergers.  An incoming capacity or status that is
    absent never overwrites the canonical field (in particular it never
    erases a non-null value), and any overwrite that does happen installs the
    (non-absent) incoming value over a previously different canonical value. -/
theorem C2_no_erasure (now : String) (inc : PRow) (r : Reactor) :
    (inc.capacity = none →
      ((updateV2 now inc r).1.Capacity = r.Capacity ∧
       (updateV1 now inc r).1.Capacity = r.Capacity)) ∧
    (inc.status = none →
      ((updateV2 now inc r).1.Status = r.Status ∧
       (updateV1 now inc r).1.Status = r.Status)) ∧
    ((updateV2 now inc r).1.Capacity ≠ r.Capacity →
      truthyInt inc.capacity = true ∧ (updateV2 now inc r).1.Capacity = inc.capacity ∧
      r.Capacity ≠ inc.capacity) ∧
    ((updateV2 now inc r).1.Status ≠ r.Status →
      mapStatus (inc.status.getD "") ≠ "" ∧
      (updateV2 now inc r).1.Status = some (mapStatus (inc.status.getD "")) ∧
      r.Status ≠ some (mapStatus (inc.status.getD ""))) ∧
    ((updateV1 now inc r).1.Capacity ≠ r.Capacity →
      truthyInt inc.capacity = true ∧ (updateV1 now inc r).1.Capacity = inc.capacity ∧
      r.Capacity ≠ inc.capacity) ∧
    ((updateV1 now inc r).1.Status ≠ r.Status →
      truthyStr (mapStatusV1 inc.status) = true ∧
      (updateV1 now inc r).1.Status = mapStatusV1 inc.status ∧
      r.Status ≠ mapStatusV1 inc.status) := by
  refine ⟨?_, ?_, ?_, ?_, ?_, ?_⟩
  · intro hc
    constructor
    · rw [updateV2_fst_Capacity, if_neg]
      intro h
      have h1 := h.1
      rw [hc] at h1
      simp [truthyInt] at h1
    · rw [updateV1_fst_Capacity, if_neg]
      intro h
      have h1 := h.1
      rw [hc] at h1
      simp [truthyInt] at h1
  · intro hs
    constructor
    · rw [updateV2_fst_Status, if_neg]
      intro h
      have h1 := h.1
      rw [hs] at h1
      simp [mapStatus] at h1
    · rw [updateV1_fst_Status, if_neg]
      intro h
      have h1 := h.1
      rw [hs] at h1
      simp [mapStatusV1, truthyStr] at h1
  · intro hne
    rw [updateV2_fst_Capacity] at hne ⊢
    by_cases h : capChanged inc r
    · rw [if_pos h]
      exact ⟨h.1, rfl, h.2⟩
    · rw [if_neg h] at hne
      exact absurd rfl hne
  · intro hne
    rw [updateV2_fst_Status] at hne ⊢
    by_cases h : statChangedV2 inc r
    · rw [if_pos h]
      exact ⟨h.1, rfl, h.2⟩
    · rw [if_neg h] at hne
      exact absurd rfl hne
  · intro hne
    rw [updateV1_fst_Capacity] at hne ⊢
    by_cases h : capChanged inc r
    · rw [if_pos h]
      exact ⟨h.1, rfl, h.2⟩
    · rw [if_neg h] at hne
      exact absurd rfl hne
  · intro hne
    rw [updateV1_fst_Status] at hne ⊢
    by_cases h : statChangedV1 inc r
    · rw [if_pos h]
      exact ⟨h.1, rfl, h.2⟩
    · rw [if_neg h] at hne
      exact absurd rfl hne

/-- Witness for C2 at a concrete record: an all-absent incoming row leaves a
    populated canonical record's capacity and status untouched in both
    mergers. -/
theorem C2_no_erasure_witness :
    (updateV2 "T1" emptyRow c2Rec).1.Capacity = c2Rec.Capacity ∧
    (updateV1 "T1" emptyRow c2Rec).1.Capacity = c2Rec.Capacity ∧
    (updateV2 "T1" emptyRow c2Rec).1.Status = c2Rec.Status ∧
    (updateV1 "T1" emptyRow c2Rec).1.Status = c2Rec.Status := by
  obtain ⟨h1, h2, -, -, -, -⟩ := C2_no_erasure "T1" emptyRow c2Rec
  obtain ⟨hc1, hc2⟩ := h1 rfl
  obtain ⟨hs1, hs2⟩ := h2 rfl
  exact ⟨hc1, hc2, hs1, hs2⟩

/- ---------- C9 ---------- -/

/-- C9 fails as stated: in update_local_data (v1) a matched record whose
    incoming fields all equal the canonical values is counted as zero
    updates, yet its LastUpdatedAt is still rewritten. -/
theorem C9_counterexample :
    (mergeV1 "T9" [c9Inc] c9Canon).2.1 = 0 ∧
    (mergeV1 "T9" [c9Inc] c9Canon).1 ≠ c9Canon ∧
    ((mergeV1 "T9" [c9Inc] c9Canon).1.map Reactor.LastUpdatedAt) = [some "T9"] := by
  decide

/-- C9 (amended): in the v2 merge the revision timestamp is stamped exactly
    when some field was overwritten — a matched record with nothing to change
    is returned identical, and changed = True really means a field differs
    and LastUpdatedAt was set; the v1 merge instead stamps LastUpdatedAt on
    every matched record, changed or not. -/
theorem C9_revision_discipline (now : String) (inc : PRow) (r : Reactor) :
    ((updateV2 now inc r).2 = false → (updateV2 now inc r).1 = r) ∧
    ((updateV2 now inc r).2 = true →
      (updateV2 now inc r).1.LastUpdatedAt = some now ∧
      ((updateV2 now inc r).1.Capacity ≠ r.Capacity ∨
       (updateV2 now inc r).1.Status ≠ r.Status ∨
       (updateV2 now inc r).1.IAEAId ≠ r.IAEAId)) ∧
    (updateV1 now inc r).1.LastUpdatedAt = some now := by
  refine ⟨?_, ?_, rfl⟩
  · intro h
    rw [updateV2_snd] at h
    rw [updateV2_unchanged now h]
  · intro h
    rw [updateV2_snd] at h
    constructor
    · rw [updateV2_fst, if_pos h]
    · rcases (changedV2_iff inc r).mp h with hc | hs | hi
      · left
        rw [updateV2_fst_Capacity, if_pos hc]
        exact fun he => hc.2 he.symm
      · right; left
        rw [updateV2_fst_Status, if_pos hs]
        exact fun he => hs.2 he.symm
      · right; right
        rw [updateV2_fst_IAEAId, if_pos hi]
        intro he
        exact hi.2 (by rw [← he]; exact hi.1)
  
/-- Witness for C9 at a concrete input: an incoming row with nothing new
    leaves the v2 record (timestamp included) untouched. -/
theorem C9_revision_discipline_witness :
    (updateV2 "T1" emptyRow c2Rec).1 = c2Rec :=
  (C9_revision_discipline "T1" emptyRow c2Rec).1 (by decide)

/- ---------- C3 ---------- -/

/-- C3 fails as stated: the v1 fallback key is the lowered name alone, so an
    incoming row whose country differs from the canonical record's country
    still matches by name in update_local_data, while the v2 composite
    name+country key rejects it. -/
theorem C3_counterexample :
    matchIdxV1 c3Canon c3Inc = some 0 ∧ rKey c3Rec ≠ iKey c3Inc ∧
    matchIdxV2 c3Canon c3Inc = none := by
  decide

/-- C3 (amended): both mergers try exact external-ID equality first, first
    hit wins with no scoring, and an ID hit decides the match no matter what
    the name is; only on ID failure do they fall back to an exact key — the
    composite lower-cased name+country key in the v2 merge, the lower-cased
    name alone in the v1 merge. -/
theorem C3_matching_priority :
    (∀ (d : List Reactor) (inc : PRow) (i : Nat),
      findByIaea d inc.iaea_id = some i →
        matchIdxV2 d inc = some i ∧ matchIdxV1 d inc = some i) ∧
    (∀ (d : List Reactor) (inc : PRow),
      findByIaea d inc.iaea_id = none →
        matchIdxV2 d inc = findByName d (iKey inc) ∧
        matchIdxV1 d inc =
          lastIdxWhere (fun r => pyLower (r.Name.getD "") == pyLower (inc.name.getD "")) d) ∧
    (∀ (d : List Reactor) (inc : PRow) (i : Nat), matchIdxV2 d inc = some i →
      ∃ r, d[i]? = some r ∧
        ((truthyInt r.IAEAId = true ∧ r.IAEAId = inc.iaea_id) ∨
         (findByIaea d inc.iaea_id = none ∧ rKey r = iKey inc))) ∧
    (∀ (d : List Reactor) (inc : PRow) (i : Nat), matchIdxV1 d inc = some i →
      ∃ r, d[i]? = some r ∧
        ((truthyInt r.IAEAId = true ∧ r.IAEAId = inc.iaea_id) ∨
         (findByIaea d inc.iaea_id = none ∧
          pyLower (r.Name.getD "") = pyLower (inc.name.getD "")))) := by
  refine ⟨?_, ?_, ?_, ?_⟩
  · intro d inc i h
    constructor
    · unfold matchIdxV2
      rw [h]
    · unfold matchIdxV1
      rw [h]
  · intro d inc h
    constructor
    · unfold matchIdxV2
      rw [h]
    · unfold matchIdxV1
      rw [h]
  · intro d inc i h
    unfold matchIdxV2 at h
    cases hia : findByIaea d inc.iaea_id with
    | some j =>
      rw [hia] at h
      have hj : j = i := by simpa using h
      subst hj
      obtain ⟨r, hr, hp⟩ := liw_some hia
      simp only [pIaea, Bool.and_eq_true, decide_eq_true_eq] at hp
      exact ⟨r, hr, Or.inl hp⟩
    | none =>
      rw [hia] at h
      obtain ⟨r, hr, hp⟩ := liw_some h
      simp only [beq_iff_eq] at hp
      exact ⟨r, hr, Or.inr ⟨rfl, hp⟩⟩
  · intro d inc i h
    unfold matchIdxV1 at h
    cases hia : findByIaea d inc.iaea_id with
    | some j =>
      rw [hia] at h
      have hj : j = i := by simpa using h
      subst hj
      obtain ⟨r, hr, hp⟩ := liw_some hia
      simp only [pIaea, Bool.and_eq_true, decide_eq_true_eq] at hp
      exact ⟨r, hr, Or.inl hp⟩
    | none =>
      rw [hia] at h
      obtain ⟨r, hr, hp⟩ := liw_some h
      simp only [beq_iff_eq] at hp
      exact ⟨r, hr, Or.inr ⟨rfl, hp⟩⟩

/-- Witness for C3: a record whose external ID matches is matched via ID in
    both mergers even though its name differs completely. -/
theorem C3_matching_priority_witness :
    matchIdxV2 c3IdCanon c3IdInc = some 0 ∧ matchIdxV1 c3IdCanon c3IdInc = some 0 :=
  C3_matching_priority.1 c3IdCanon c3IdInc 0 (by decide)

/- ---------- C8 ---------- -/

theorem mergeStepV1_nomatch {lookup : PRow → Option Nat} {now : String}
    {acc : List Reactor × Nat × Nat} {inc : PRow} (hl : lookup inc = none) :
    mergeStepV1 lookup now acc inc = (acc.1, acc.2.1, acc.2.2 + 1) := by
  unfold mergeStepV1
  rw [hl]

theorem mergeV2_all_nomatch_aux {lookup : PRow → Option Nat} {now : String}
    {incs : List PRow} (h : ∀ inc ∈ incs, lookup inc = none) :
    ∀ (dd : List Reactor) (st : MStats),
      incs.foldl (mergeStepV2 lookup now) (dd, st) =
        (dd, { st with newCount := st.newCount + incs.length }) := by
  induction incs with
  | nil => intro dd st; rfl
  | cons a t ih =>
    intro dd st
    rw [List.foldl_cons, mergeStepV2_nomatch (h a (by simp))]
    rw [ih (fun inc hi => h inc (by simp [hi]))]
    have harith : st.newCount + 1 + t.length = st.newCount + (t.length + 1) := by omega
    simp [harith]

theorem mergeV1_all_nomatch_aux {lookup : PRow → Option Nat} {now : String}
    {incs : List PRow} (h : ∀ inc ∈ incs, lookup inc = none) :
    ∀ (dd : List Reactor) (u n : Nat),
      incs.foldl (mergeStepV1 lookup now) (dd, u, n) = (dd, u, n + incs.length) := by
  induction incs with
  | nil => intro dd u n; rfl
  | cons a t ih =>
    intro dd u n
    rw [List.foldl_cons, mergeStepV1_nomatch (h a (by simp))]
    rw [ih (fun inc hi => h inc (by simp [hi]))]
    have harith : n + 1 + t.length = n + (t.length + 1) := by omega
    simp [harith]

/-- C8: an incoming record that matches nothing only bumps the new-candidate
    counter — one unmatched iteration leaves the record list untouched in
    both mergers, and a run whose incoming records all fail to match returns
    the canonical set exactly as loaded, with zero updates and one reported
    candidate per incoming record. -/
theorem C8_nomatch_frame :
    (∀ (lookup : PRow → Option Nat) (now : String) (acc : List Reactor × MStats) (inc : PRow),
      lookup inc = none →
      mergeStepV2 lookup now acc inc = (acc.1, { acc.2 with newCount := acc.2.newCount + 1 })) ∧
    (∀ (lookup : PRow → Option Nat) (now : String) (acc : List Reactor × Nat × Nat) (inc : PRow),
      lookup inc = none →
      mergeStepV1 lookup now acc inc = (acc.1, acc.2.1, acc.2.2 + 1)) ∧
    (∀ (now : String) (incs : List PRow) (d : List Reactor),
      (∀ inc ∈ incs, matchIdxV2 d inc = none) →
      (mergeV2 now incs d).1 = d ∧ (mergeV2 now incs d).2.updated = 0 ∧
      (mergeV2 now incs d).2.newCount = incs.length) ∧
    (∀ (now : String) (incs : List PRow) (d : List Reactor),
      (∀ inc ∈ incs, matchIdxV1 d inc = none) →
      (mergeV1 now incs d).1 = d ∧ (mergeV1 now incs d).2.1 = 0 ∧
      (mergeV1 now incs d).2.2 = incs.length) := by
  refine ⟨?_, ?_, ?_, ?_⟩
  · intro lookup now acc inc h
    exact mergeStepV2_nomatch h
  · intro lookup now acc inc h
    exact mergeStepV1_nomatch h
  · intro now incs d h
    unfold mergeV2
    rw [mergeV2_all_nomatch_aux h d {}]
    exact ⟨rfl, rfl, by simp⟩
  · intro now incs d h
    unfold mergeV1
    rw [mergeV1_all_nomatch_aux h d 0 0]
    exact ⟨rfl, rfl, by simp⟩

/-- Witness for C8: a concrete unmatched candidate leaves the concrete
    canonical set exactly as it was in both mergers. -/
theorem C8_nomatch_frame_witness :
    (mergeV2 "T" [c8Inc] c1Canon).1 = c1Canon ∧
    (mergeV1 "T" [c8Inc] c1Canon).1 = c1Canon := by
  constructor
  · exact (C8_nomatch_frame.2.2.1 "T" [c8Inc] c1Canon
      (by intro inc hi; simp at hi; subst hi; decide)).1
  · exact (C8_nomatch_frame.2.2.2 "T" [c8Inc] c1Canon
      (by intro inc hi; simp at hi; subst hi; decide)).1

/- ---------- C7 ---------- -/

theorem usTail_all_digits {l : List Char} (h : ∀ c ∈ l, c.isDigit = true) :
    usTail l = true := by
  induction l with
  | nil => rfl
  | cons c t ih =>
    have hc : c.isDigit = true := h c (by simp)
    have hne : ¬ c = '_' := by
      intro he
      subst he
      simp at hc
    unfold usTail
    rw [if_neg hne]
    simp [hc, ih (fun x hx => h x (by simp [hx]))]

theorem digit_ne_plus {c : Char} (h : c.isDigit = true) : ¬ c = '+' := by
  intro he
  subst he
  simp at h

theorem digit_ne_minus {c : Char} (h : c.isDigit = true) : ¬ c = '-' := by
  intro he
  subst he
  simp at h

theorem filter_self_of_all {p : α → Bool} {l : List α} (h : ∀ c ∈ l, p c = true) :
    l.filter p = l := by
  induction l with
  | nil => rfl
  | cons c t ih =>
    rw [List.filter_cons, if_pos (h c (by simp))]
    rw [ih (fun x hx => h x (by simp [hx]))]

theorem sep_filter_eq_digit_filter {l : List Char}
    (h : ∀ c ∈ l, c.isDigit = true ∨ c = ',' ∨ c = ' ') :
    l.filter (fun c => decide (c ≠ ',' ∧ c ≠ ' ')) = l.filter Char.isDigit := by
  induction l with
  | nil => rfl
  | cons c t ih =>
    have ht := ih (fun x hx => h x (by simp [hx]))
    rcases h c (by simp) with hd | hc | hc
    · have h1 : (decide (c ≠ ',' ∧ c ≠ ' ')) = true := by
        simp only [decide_eq_true_eq]
        constructor
        · intro he; subst he; simp at hd
        · intro he; subst he; simp at hd
      rw [List.filter_cons, List.filter_cons, if_pos h1, if_pos hd, ht]
    · subst hc
      rw [List.filter_cons, List.filter_cons]
      simp only [decide_eq_true_eq] at ht ⊢
      simpa using ht
    · subst hc
      rw [List.filter_cons, List.filter_cons]
      simp only [decide_eq_true_eq] at ht ⊢
      simpa using ht

theorem pyInt_all_digits {l : List Char} (hne : l ≠ [])
    (h : ∀ c ∈ l, c.isDigit = true) :
    pyInt (String.mk l) = some (Int.ofNat (digitsVal l)) := by
  cases l with
  | nil => exact absurd rfl hne
  | cons c rest =>
    have hcd : c.isDigit = true := h c (by simp)
    have hrest : ∀ x ∈ rest, x.isDigit = true := fun x hx => h x (by simp [hx])
    rw [show pyInt (String.mk (c :: rest)) =
          (if c = '+' then (parseDigits rest).map Int.ofNat
           else if c = '-' then (parseDigits rest).map (fun n => -(n : Int))
           else (parseDigits (c :: rest)).map Int.ofNat) from rfl]
    rw [if_neg (digit_ne_plus hcd), if_neg (digit_ne_minus hcd)]
    have hpds : pyDigitStr (c :: rest) = true := by
      unfold pyDigitStr
      simp [hcd, usTail_all_digits hrest]
    unfold parseDigits
    rw [hpds]
    have hall2 : ∀ x ∈ c :: rest, Char.isDigit x = true := by
      intro x hx
      rcases List.mem_cons.mp hx with he | hm
      · subst he; exact hcd
      · exact hrest x hm
    rw [filter_self_of_all hall2]
    rfl

theorem parseCapacity_of_digits_and_seps {data : String}
    (hall : ∀ c ∈ data.data, c.isDigit = true ∨ c = ',' ∨ c = ' ')
    (hdig : ∃ c ∈ data.data, c.isDigit = true) :
    parseCapacity data = some (Int.ofNat (digitsVal (data.data.filter Char.isDigit))) := by
  unfold parseCapacity
  rw [sep_filter_eq_digit_filter hall]
  obtain ⟨c0, hc0m, hc0d⟩ := hdig
  have hne : data.data.filter Char.isDigit ≠ [] := by
    intro he
    have hmem : c0 ∈ data.data.filter Char.isDigit := List.mem_filter.mpr ⟨hc0m, hc0d⟩
    rw [he] at hmem
    simp at hmem
  exact pyInt_all_digits hne (fun c hc => (List.mem_filter.mp hc).2)

/-- C7: capacity normalization.  Any cell text made of digits with embedded
    comma or space separators (at least one digit) parses to the number its
    digits spell in both parsers' capacity handling, while an empty or
    non-numeric cell yields an absent value rather than raising — "1,200"
    gives 1200 and "" or "n/a" give none. -/
theorem C7_capacity_normalization :
    (∀ data : String,
      (∀ c ∈ data.data, c.isDigit = true ∨ c = ',' ∨ c = ' ') →
      (∃ c ∈ data.data, c.isDigit = true) →
      v2SetCapacity data none = some (Int.ofNat (digitsVal (data.data.filter Char.isDigit))) ∧
      v1SetCapacity data = some (Int.ofNat (digitsVal (data.data.filter Char.isDigit)))) ∧
    v2SetCapacity "1,200" none = some 1200 ∧
    v1SetCapacity "1,200" = some 1200 ∧
    v2SetCapacity "" none = none ∧
    v1SetCapacity "" = none ∧
    v2SetCapacity "n/a" none = none ∧
    v1SetCapacity "n/a" = none := by
  refine ⟨?_, by decide, by decide, by decide, by decide, by decide, by decide⟩
  intro data hall hdig
  have hne : data ≠ "" := by
    intro he
    subst he
    obtain ⟨c, hcm, -⟩ := hdig
    simp at hcm
  have hp := parseCapacity_of_digits_and_seps hall hdig
  constructor
  · unfold v2SetCapacity
    rw [if_pos hne, hp]
  · unfold v1SetCapacity
    rw [if_pos hne, hp]

/-- Witness for C7: the general digits-with-separators clause applied at
    "1 234". -/
theorem C7_capacity_normalization_witness :
    v2SetCapacity "1 234" none = some 1234 ∧ v1SetCapacity "1 234" = some 1234 := by
  have h := C7_capacity_normalization.1 "1 234" (by decide) (by decide)
  exact ⟨by rw [h.1]; decide, by rw [h.2]; decide⟩

/- ---------- C4 ---------- -/

/-- C4: row emission.  A row-close event appends the row under construction
    exactly when the parser is inside a row whose name field is truthy (both
    parser versions); and on the fixture stream — three well-formed rows, one
    nameless row, stray mismatched close tags — the v2 extractor, a total
    function that cannot raise, emits exactly the 3 well-formed rows with
    their fields mapped by column index. -/
theorem C4_row_emission :
    (∀ s : PState, (handleEndV2 s "tr").reactors =
      if s.in_row = true ∧ truthyStr s.current_reactor.name = true
      then s.reactors ++ [s.current_reactor] else s.reactors) ∧
    (∀ s : PState, (handleEndV1 s "tr").reactors =
      if s.in_row = true ∧ truthyStr s.current_reactor.name = true
      then s.reactors ++ [s.current_reactor] else s.reactors) ∧
    (runV2 c4Events).reactors = c4Expected ∧
    (runV2 c4Events).reactors.length = 3 := by
  refine ⟨?_, ?_, by decide, by decide⟩
  · intro s
    by_cases hr : s.in_row = true <;> by_cases hn : truthyStr s.current_reactor.name = true <;>
      simp [handleEndV2, hr, hn]
  · intro s
    by_cases hr : s.in_row = true <;> by_cases hn : truthyStr s.current_reactor.name = true <;>
      simp [handleEndV1, hr, hn]

/- ---------- C10 ---------- -/

theorem mapCellV2_iaea (idx : Nat) (data : String) (r : PRow) :
    (mapCellV2 idx data r).iaea_id = r.iaea_id := by
  unfold mapCellV2
  split_ifs <;> rfl

theorem stepV2_id_free {s : PState} (e : HEvent)
    (h1 : s.current_reactor.iaea_id = none)
    (h2 : ∀ row ∈ s.reactors, row.iaea_id = none) :
    (stepV2 s e).current_reactor.iaea_id = none ∧
    ∀ row ∈ (stepV2 s e).reactors, row.iaea_id = none := by
  cases e with
  | start t a =>
    dsimp only [stepV2, handleStartV2]
    repeat' split
    all_goals refine ⟨by simp_all [emptyRow], by simp_all⟩
  | close t =>
    dsimp only [stepV2, handleEndV2]
    repeat' split
    all_goals refine ⟨by simp_all [mapCellV2_iaea], ?_⟩
    all_goals intro row hrow
    all_goals try exact h2 row hrow
    rcases List.mem_append.mp hrow with hm | hm
    · exact h2 row hm
    · rw [List.mem_singleton.mp hm]
      exact h1
  | text d =>
    dsimp only [stepV2, handleDataP]
    split
    · exact ⟨h1, h2⟩
    · exact ⟨h1, h2⟩

theorem foldl_stepV2_id_free (evs : List HEvent) :
    ∀ s : PState, s.current_reactor.iaea_id = none →
      (∀ row ∈ s.reactors, row.iaea_id = none) →
      (evs.foldl stepV2 s).current_reactor.iaea_id = none ∧
      ∀ row ∈ (evs.foldl stepV2 s).reactors, row.iaea_id = none := by
  induction evs with
  | nil => intro s h1 h2; exact ⟨h1, h2⟩
  | cons e t ih =>
    intro s h1 h2
    rw [List.foldl_cons]
    obtain ⟨h1', h2'⟩ := stepV2_id_free e h1 h2
    exact ih (stepV2 s e) h1' h2'

theorem findByIaea_none_probe (d : List Reactor) : findByIaea d none = none := by
  unfold findByIaea
  apply liw_none_of
  intro i x _
  unfold pIaea truthyInt
  cases h : x.IAEAId <;> simp [h]

theorem updateV2_fst_IAEAId_of_absent {inc : PRow} (now : String) (r : Reactor)
    (h : inc.iaea_id = none) : ((updateV2 now inc r).1).IAEAId = r.IAEAId := by
  rw [updateV2_fst_IAEAId, if_neg]
  intro hic
  have h1 := hic.1
  rw [h] at h1
  simp [truthyInt] at h1

theorem mergeV2_foldl_preserves_iaea {lookup : PRow → Option Nat} {now : String}
    {incs : List PRow} (h : ∀ inc ∈ incs, inc.iaea_id = none) :
    ∀ (acc : List Reactor × MStats) (i : Nat),
      ((incs.foldl (mergeStepV2 lookup now) acc).1[i]?).map Reactor.IAEAId =
        (acc.1[i]?).map Reactor.IAEAId := by
  induction incs with
  | nil => intro acc i; rfl
  | cons a t ih =>
    intro acc i
    rw [List.foldl_cons]
    have ha : a.iaea_id = none := h a (by simp)
    have ht := ih (fun inc hi => h inc (by simp [hi]))
    rw [ht]
    cases hl : lookup a with
    | none => rw [mergeStepV2_nomatch hl]
    | some j =>
      cases hg : acc.1[j]? with
      | none =>
        unfold mergeStepV2
        rw [hl]
        dsimp only
        rw [hg]
      | some r =>
        rw [mergeStepV2_matched hl hg]
        dsimp only
        by_cases hij : j = i
        · subst hij
          rw [getq_set_self _ (getq_lt hg), hg]
          dsimp only [Option.map]
          rw [updateV2_fst_IAEAId_of_absent now r ha]
        · rw [getq_set_ne _ hij]

/-- C10: every row the v2 table parser emits lacks the iaea_id key (its link
    handler records only row_index), so in merge_with_existing the
    external-ID index lookup never finds anything for these rows, every match
    is decided by the name+country key alone, and the IAEAId-backfill branch
    never fires: the merge leaves every record's IAEAId exactly as loaded. -/
theorem C10_v2_rows_have_no_external_id :
    (∀ evs : List HEvent, ∀ row ∈ (runV2 evs).reactors, row.iaea_id = none) ∧
    (∀ d : List Reactor, findByIaea d none = none) ∧
    (∀ (evs : List HEvent) (cname ccode : String) (d : List Reactor),
      ∀ inc ∈ (runV2 evs).reactors.map (addCountry cname ccode),
        matchIdxV2 d inc = findByName d (iKey inc)) ∧
    (∀ (evs : List HEvent) (cname ccode : String) (d : List Reactor) (now : String) (i : Nat),
      ((mergeV2 now ((runV2 evs).reactors.map (addCountry cname ccode)) d).1[i]?).map
          Reactor.IAEAId = (d[i]?).map Reactor.IAEAId) := by
  have hrows : ∀ evs : List HEvent, ∀ row ∈ (runV2 evs).reactors, row.iaea_id = none :=
    fun evs => (foldl_stepV2_id_free evs initPState rfl (by intro row h; simp [initPState] at h)).2
  have hincs : ∀ (evs : List HEvent) (cname ccode : String),
      ∀ inc ∈ (runV2 evs).reactors.map (addCountry cname ccode), inc.iaea_id = none := by
    intro evs cname ccode inc hi
    obtain ⟨row, hrow, hmap⟩ := List.mem_map.mp hi
    rw [← hmap]
    exact hrows evs row hrow
  refine ⟨hrows, findByIaea_none_probe, ?_, ?_⟩
  · intro evs cname ccode d inc hi
    unfold matchIdxV2
    rw [hincs evs cname ccode inc hi, findByIaea_none_probe]
  · intro evs cname ccode d now i
    exact mergeV2_foldl_preserves_iaea (hincs evs cname ccode) (d, {}) i

/-- Witness for C10: on the fixture stream merged against a concrete
    canonical set, the first emitted row is matched by name key alone. -/
theorem C10_v2_rows_have_no_external_id_witness :
    matchIdxV2 c1Canon c10Inc = findByName c1Canon (iKey c10Inc) :=
  C10_v2_rows_have_no_external_id.2.2.1 c4Events "France" "FR" c1Canon c10Inc (by decide)

/- ---------- wiki loop: step characterizations ---------- -/

theorem wikiLoopN_succ (oracle : EReactor → Option WikiInfo) (rs : List EReactor) (n : Nat) :
    wikiLoopN oracle rs (n + 1) = wikiStep oracle (wikiLoopN oracle rs n) n := by
  unfold wikiLoopN
  rw [List.range_succ, List.foldl_append]
  rfl

theorem wikiStep_oob {oracle : EReactor → Option WikiInfo} {s : WState} {i : Nat}
    (h : s.reactors[i]? = none) : wikiStep oracle s i = s := by
  unfold wikiStep
  rw [h]

theorem wikiStep_hit_found {oracle : EReactor → Option WikiInfo} {s : WState} {i : Nat}
    {r : EReactor} {info : WikiInfo} (hr : s.reactors[i]? = some r)
    (hc : cacheFind s.cache (baseName (r.Name.getD "")) = some (some info)) :
    wikiStep oracle s i =
      { s with reactors := s.reactors.set i (applyWiki info r),
               enriched := s.enriched + 1 } := by
  unfold wikiStep
  rw [hr]
  dsimp only
  rw [hc]

theorem wikiStep_hit_neg {oracle : EReactor → Option WikiInfo} {s : WState} {i : Nat}
    {r : EReactor} (hr : s.reactors[i]? = some r)
    (hc : cacheFind s.cache (baseName (r.Name.getD "")) = some none) :
    wikiStep oracle s i = s := by
  unfold wikiStep
  rw [hr]
  dsimp only
  rw [hc]

theorem wikiStep_miss_found {oracle : EReactor → Option WikiInfo} {s : WState} {i : Nat}
    {r : EReactor} {info : WikiInfo} (hr : s.reactors[i]? = some r)
    (hc : cacheFind s.cache (baseName (r.Name.getD "")) = none)
    (ho : oracle r = some info) :
    wikiStep oracle s i =
      (if (i + 1) % 50 = 0 then
        { reactors := s.reactors.set i (applyWiki info r),
          cache := s.cache ++ [(baseName (r.Name.getD ""), some info)],
          enriched := s.enriched + 1,
          snaps := s.snaps ++ [(i + 1, s.reactors.set i (applyWiki info r))],
          lookupLog := s.lookupLog ++ [baseName (r.Name.getD "")] }
      else
        { reactors := s.reactors.set i (applyWiki info r),
          cache := s.cache ++ [(baseName (r.Name.getD ""), some info)],
          enriched := s.enriched + 1,
          snaps := s.snaps,
          lookupLog := s.lookupLog ++ [baseName (r.Name.getD "")] }) := by
  unfold wikiStep
  rw [hr]
  dsimp only
  rw [hc, ho]

theorem wikiStep_miss_notfound {oracle : EReactor → Option WikiInfo} {s : WState} {i : Nat}
    {r : EReactor} (hr : s.reactors[i]? = some r)
    (hc : cacheFind s.cache (baseName (r.Name.getD "")) = none)
    (ho : oracle r = none) :
    wikiStep oracle s i =
      (if (i + 1) % 50 = 0 then
        { reactors := s.reactors,
          cache := s.cache ++ [(baseName (r.Name.getD ""), none)],
          enriched := s.enriched,
          snaps := s.snaps ++ [(i + 1, s.reactors)],
          lookupLog := s.lookupLog ++ [baseName (r.Name.getD "")] }
      else
        { reactors := s.reactors,
          cache := s.cache ++ [(baseName (r.Name.getD ""), none)],
          enriched := s.enriched,
          snaps := s.snaps,
          lookupLog := s.lookupLog ++ [baseName (r.Name.getD "")] }) := by
  unfold wikiStep
  rw [hr]
  dsimp only
  rw [hc, ho]

/- ---------- cacheFind facts ---------- -/

theorem cacheFind_append (c1 c2 : List (String × Option WikiInfo)) (k : String) :
    cacheFind (c1 ++ c2) k =
      match cacheFind c1 k with
      | some v => some v
      | none => cacheFind c2 k := by
  induction c1 with
  | nil => rfl
  | cons p t ih =>
    cases p with
    | mk k' v =>
      have hdef : cacheFind ((k', v) :: t) k
          = (if k' == k then some v else cacheFind t k) := rfl
      have hdef2 : cacheFind (((k', v) :: t) ++ c2) k
          = (if k' == k then some v else cacheFind (t ++ c2) k) := rfl
      rw [hdef2, hdef]
      by_cases h : (k' == k) = true
      · rw [if_pos h, if_pos h]
      · rw [if_neg h, if_neg h, ih]

theorem cacheFind_isSome_mem (c : List (String × Option WikiInfo)) (k : String) :
    (cacheFind c k).isSome = true ↔ k ∈ c.map Prod.fst := by
  induction c with
  | nil => simp [cacheFind]
  | cons p t ih =>
    cases p with
    | mk k' v =>
      have hdef : cacheFind ((k', v) :: t) k
          = (if k' == k then some v else cacheFind t k) := rfl
      rw [hdef]
      by_cases h : (k' == k) = true
      · rw [if_pos h]
        simp [List.map_cons, (beq_iff_eq.mp h)]
      · rw [if_neg h]
        have h' : k ≠ k' := fun he => h (beq_iff_eq.mpr he.symm)
        simp only [List.map_cons, List.mem_cons]
        rw [ih]
        exact ⟨Or.inr, fun hm => hm.resolve_left h'⟩

theorem cacheFind_append_single_isSome (c : List (String × Option WikiInfo))
    (b : String) (v : Option WikiInfo) (k : String) :
    (cacheFind (c ++ [(b, v)]) k).isSome = true ↔
      (cacheFind c k).isSome = true ∨ k = b := by
  rw [cacheFind_append]
  cases h : cacheFind c k with
  | some w => simp
  | none =>
    have hdef : cacheFind [(b, v)] k = (if b == k then some v else none) := rfl
    rw [hdef]
    by_cases hb : (b == k) = true
    · rw [if_pos hb]
      simp [(beq_iff_eq.mp hb).symm]
    · rw [if_neg hb]
      have hb' : k ≠ b := fun he => hb (beq_iff_eq.mpr he.symm)
      simp [hb']

theorem cacheFind_append_single_other {c : List (String × Option WikiInfo)}
    {b k : String} (v : Option WikiInfo) (h : k ≠ b) :
    cacheFind (c ++ [(b, v)]) k = cacheFind c k := by
  rw [cacheFind_append]
  cases hc : cacheFind c k with
  | some w => rfl
  | none =>
    have hdef : cacheFind [(b, v)] k = (if b == k then some v else none) := rfl
    rw [hdef, if_neg (fun hb => h (beq_iff_eq.mp hb).symm)]

/- ---------- wiki loop invariants ---------- -/

theorem getq_none_len {l : List α} {n : Nat} (h : l[n]? = none) : l.length ≤ n := by
  by_contra hlt
  push_neg at hlt
  rw [List.getElem?_eq_getElem hlt] at h
  cases h

theorem wiki_len_inv (oracle : EReactor → Option WikiInfo) (rs : List EReactor) :
    ∀ n : Nat, (wikiLoopN oracle rs n).reactors.length = rs.length := by
  intro n
  induction n with
  | zero => rfl
  | succ m ih =>
    rw [wikiLoopN_succ]
    cases hr : (wikiLoopN oracle rs m).reactors[m]? with
    | none => rw [wikiStep_oob hr]; exact ih
    | some r =>
      cases hc : cacheFind (wikiLoopN oracle rs m).cache (baseName (r.Name.getD "")) with
      | some wi =>
        cases wi with
        | some info =>
          rw [wikiStep_hit_found hr hc]
          dsimp only
          rw [length_set']
          exact ih
        | none => rw [wikiStep_hit_neg hr hc]; exact ih
      | none =>
        cases ho : oracle r with
        | some info =>
          rw [wikiStep_miss_found hr hc ho]
          split <;> (dsimp only; rw [length_set']; exact ih)
        | none =>
          rw [wikiStep_miss_notfound hr hc ho]
          split <;> (dsimp only; exact ih)

theorem wiki_tail_inv (oracle : EReactor → Option WikiInfo) (rs : List EReactor) :
    ∀ n i : Nat, n ≤ i → (wikiLoopN oracle rs n).reactors[i]? = rs[i]? := by
  intro n
  induction n with
  | zero => intro i _; rfl
  | succ m ih =>
    intro i hi
    have hmi : m ≤ i := by omega
    have hne : m ≠ i := by omega
    rw [wikiLoopN_succ]
    cases hr : (wikiLoopN oracle rs m).reactors[m]? with
    | none => rw [wikiStep_oob hr]; exact ih i hmi
    | some r =>
      cases hc : cacheFind (wikiLoopN oracle rs m).cache (baseName (r.Name.getD "")) with
      | some wi =>
        cases wi with
        | some info =>
          rw [wikiStep_hit_found hr hc]
          dsimp only
          rw [getq_set_ne _ hne]
          exact ih i hmi
        | none => rw [wikiStep_hit_neg hr hc]; exact ih i hmi
      | none =>
        cases ho : oracle r with
        | some info =>
          rw [wikiStep_miss_found hr hc ho]
          split <;> (dsimp only; rw [getq_set_ne _ hne]; exact ih i hmi)
        | none =>
          rw [wikiStep_miss_notfound hr hc ho]
          split <;> (dsimp only; exact ih i hmi)

theorem wiki_cache_inv (oracle : EReactor → Option WikiInfo) (rs : List EReactor) :
    ∀ (n : Nat) (k : String),
      (cacheFind (wikiLoopN oracle rs n).cache k).isSome = true ↔
        k ∈ baseKeys (rs.take n) := by
  intro n
  induction n with
  | zero =>
    intro k
    show (cacheFind [] k).isSome = true ↔ k ∈ baseKeys (rs.take 0)
    simp [cacheFind, baseKeys]
  | succ m ih =>
    intro k
    rw [wikiLoopN_succ]
    cases hr : (wikiLoopN oracle rs m).reactors[m]? with
    | none =>
      have hlen : rs.length ≤ m := by
        have := getq_none_len hr
        rwa [wiki_len_inv oracle rs m] at this
      rw [wikiStep_oob hr, List.take_of_length_le hlen,
          List.take_of_length_le (by omega : rs.length ≤ m + 1)] at *
      exact ih k
    | some r =>
      have hrs : rs[m]? = some r := by
        rw [← wiki_tail_inv oracle rs m m (le_refl m)]
        exact hr
      have htake : baseKeys (rs.take (m + 1)) =
          baseKeys (rs.take m) ++ [baseName (r.Name.getD "")] := by
        unfold baseKeys
        rw [List.take_succ, hrs]
        simp
      rw [htake]
      cases hc : cacheFind (wikiLoopN oracle rs m).cache (baseName (r.Name.getD "")) with
      | some wi =>
        have hbase : baseName (r.Name.getD "") ∈ baseKeys (rs.take m) := by
          rw [← ih]
          rw [hc]
          rfl
        have hiff : k ∈ baseKeys (rs.take m) ++ [baseName (r.Name.getD "")] ↔
            k ∈ baseKeys (rs.take m) := by
          rw [List.mem_append, List.mem_singleton]
          exact ⟨fun h => h.elim id (fun he => he ▸ hbase), Or.inl⟩
        rw [hiff]
        cases wi with
        | some info =>
          rw [wikiStep_hit_found hr hc]
          exact ih k
        | none =>
          rw [wikiStep_hit_neg hr hc]
          exact ih k
      | none =>
        have hmem : k ∈ baseKeys (rs.take m) ++ [baseName (r.Name.getD "")] ↔
            k ∈ baseKeys (rs.take m) ∨ k = baseName (r.Name.getD "") := by
          rw [List.mem_append, List.mem_singleton]
        rw [hmem, ← ih k]
        cases ho : oracle r with
        | some info =>
          rw [wikiStep_miss_found hr hc ho]
          split <;> exact cacheFind_append_single_isSome _ _ _ k
        | none =>
          rw [wikiStep_miss_notfound hr hc ho]
          split <;> exact cacheFind_append_single_isSome _ _ _ k

theorem wiki_log_inv (oracle : EReactor → Option WikiInfo) (rs : List EReactor) :
    ∀ (n : Nat) (k : String),
      (wikiLoopN oracle rs n).lookupLog.count k =
        if (cacheFind (wikiLoopN oracle rs n).cache k).isSome = true then 1 else 0 := by
  intro n
  induction n with
  | zero =>
    intro k
    show (List.count k []) = if (cacheFind [] k).isSome = true then 1 else 0
    simp [cacheFind]
  | succ m ih =>
    intro k
    rw [wikiLoopN_succ]
    cases hr : (wikiLoopN oracle rs m).reactors[m]? with
    | none => rw [wikiStep_oob hr]; exact ih k
    | some r =>
      cases hc : cacheFind (wikiLoopN oracle rs m).cache (baseName (r.Name.getD "")) with
      | some wi =>
        cases wi with
        | some info => rw [wikiStep_hit_found hr hc]; exact ih k
        | none => rw [wikiStep_hit_neg hr hc]; exact ih k
      | none =>
        have hcount : ∀ isfound : Bool,
            (((wikiLoopN oracle rs m).lookupLog ++ [baseName (r.Name.getD "")]).count k =
              if (cacheFind ((wikiLoopN oracle rs m).cache ++
                    [(baseName (r.Name.getD ""),
                      if isfound then oracle r else none)]) k).isSome = true
              then 1 else 0) := by
          intro isfound
          by_cases hk : k = baseName (r.Name.getD "")
          · have h0 : (wikiLoopN oracle rs m).lookupLog.count k = 0 := by
              rw [ih k, hk, hc]
              rfl
            have h1 : (cacheFind ((wikiLoopN oracle rs m).cache ++
                [(baseName (r.Name.getD ""), if isfound then oracle r else none)]) k).isSome
                = true := by
              rw [cacheFind_append_single_isSome]
              exact Or.inr hk
            rw [if_pos h1, List.count_append]
            rw [h0, hk]
            simp
          · have h2 : cacheFind ((wikiLoopN oracle rs m).cache ++
                [(baseName (r.Name.getD ""), if isfound then oracle r else none)]) k =
                cacheFind (wikiLoopN oracle rs m).cache k :=
              cacheFind_append_single_other _ hk
            have h4 : ¬ baseName (r.Name.getD "") = k := fun he => hk he.symm
            rw [h2, ← ih k, List.count_append]
            simp [List.count_cons, beq_iff_eq, h4]
        cases ho : oracle r with
        | some info =>
          rw [wikiStep_miss_found hr hc ho]
          have := hcount true
          rw [ho] at this
          split <;> exact this
        | none =>
          rw [wikiStep_miss_notfound hr hc ho]
          have := hcount false
          split <;> exact this

theorem wiki_cachekeys_inv (oracle : EReactor → Option WikiInfo) (rs : List EReactor) :
    ∀ (n : Nat) (k : String),
      ((wikiLoopN oracle rs n).cache.map Prod.fst).count k ≤ 1 := by
  intro n
  induction n with
  | zero =>
    intro k
    show (List.count k (List.map Prod.fst [])) ≤ 1
    simp
  | succ m ih =>
    intro k
    rw [wikiLoopN_succ]
    cases hr : (wikiLoopN oracle rs m).reactors[m]? with
    | none => rw [wikiStep_oob hr]; exact ih k
    | some r =>
      cases hc : cacheFind (wikiLoopN oracle rs m).cache (baseName (r.Name.getD "")) with
      | some wi =>
        cases wi with
        | some info => rw [wikiStep_hit_found hr hc]; exact ih k
        | none => rw [wikiStep_hit_neg hr hc]; exact ih k
      | none =>
        have hnew : ∀ v : Option WikiInfo,
            ((((wikiLoopN oracle rs m).cache ++
              [(baseName (r.Name.getD ""), v)]).map Prod.fst).count k ≤ 1) := by
          intro v
          rw [List.map_append, List.count_append]
          by_cases hk : k = baseName (r.Name.getD "")
          · have hnotmem : baseName (r.Name.getD "") ∉
                (wikiLoopN oracle rs m).cache.map Prod.fst := by
              rw [← cacheFind_isSome_mem, hc]
              simp
            have h0 : ((wikiLoopN oracle rs m).cache.map Prod.fst).count k = 0 := by
              rw [List.count_eq_zero]
              rw [hk]
              exact hnotmem
            rw [h0, hk]
            simp
          · have h4 : ¬ baseName (r.Name.getD "") = k := fun he => hk he.symm
            have h1 : (List.map Prod.fst [(baseName (r.Name.getD ""), v)]).count k = 0 := by
              simp [List.count_cons, beq_iff_eq, h4]
            rw [h1]
            simpa using ih k
        cases ho : oracle r with
        | some info =>
          rw [wikiStep_miss_found hr hc ho]
          split <;> exact hnew (some info)
        | none =>
          rw [wikiStep_miss_notfound hr hc ho]
          split <;> exact hnew none

theorem wiki_snaps_inv (oracle : EReactor → Option WikiInfo) (rs : List EReactor) :
    ∀ n : Nat, ∀ p ∈ (wikiLoopN oracle rs n).snaps,
      p.1 % 50 = 0 ∧ 0 < p.1 ∧ p.1 ≤ n ∧ p.2 = (wikiLoopN oracle rs p.1).reactors := by
  intro n
  induction n with
  | zero =>
    intro p hp
    exact absurd hp (by simp [wikiLoopN, initWState])
  | succ m ih =>
    intro p hp
    rw [wikiLoopN_succ] at hp
    have relax : ∀ q : Nat × List EReactor, q ∈ (wikiLoopN oracle rs m).snaps →
        q.1 % 50 = 0 ∧ 0 < q.1 ∧ q.1 ≤ m + 1 ∧ q.2 = (wikiLoopN oracle rs q.1).reactors := by
      intro q hq
      obtain ⟨a, b, c, d⟩ := ih q hq
      exact ⟨a, b, by omega, d⟩
    cases hr : (wikiLoopN oracle rs m).reactors[m]? with
    | none =>
      rw [wikiStep_oob hr] at hp
      exact relax p hp
    | some r =>
      cases hc : cacheFind (wikiLoopN oracle rs m).cache (baseName (r.Name.getD "")) with
      | some wi =>
        cases wi with
        | some info =>
          rw [wikiStep_hit_found hr hc] at hp
          exact relax p hp
        | none =>
          rw [wikiStep_hit_neg hr hc] at hp
          exact relax p hp
      | none =>
        cases ho : oracle r with
        | some info =>
          rw [wikiStep_miss_found hr hc ho] at hp
          by_cases hmod : (m + 1) % 50 = 0
          · rw [if_pos hmod] at hp
            dsimp only at hp
            rcases List.mem_append.mp hp with hm | hm
            · exact relax p hm
            · rw [List.mem_singleton.mp hm]
              refine ⟨hmod, by omega, by omega, ?_⟩
              rw [wikiLoopN_succ, wikiStep_miss_found hr hc ho, if_pos hmod]
          · rw [if_neg hmod] at hp
            exact relax p hp
        | none =>
          rw [wikiStep_miss_notfound hr hc ho] at hp
          by_cases hmod : (m + 1) % 50 = 0
          · rw [if_pos hmod] at hp
            dsimp only at hp
            rcases List.mem_append.mp hp with hm | hm
            · exact relax p hm
            · rw [List.mem_singleton.mp hm]
              refine ⟨hmod, by omega, by omega, ?_⟩
              rw [wikiLoopN_succ, wikiStep_miss_notfound hr hc ho, if_pos hmod]
          · rw [if_neg hmod] at hp
            exact relax p hp

theorem wikiStep_snaps_mono (oracle : EReactor → Option WikiInfo) (s : WState) (i : Nat)
    {p : Nat × List EReactor} (hp : p ∈ s.snaps) : p ∈ (wikiStep oracle s i).snaps := by
  cases hr : s.reactors[i]? with
  | none => rw [wikiStep_oob hr]; exact hp
  | some r =>
    cases hc : cacheFind s.cache (baseName (r.Name.getD "")) with
    | some wi =>
      cases wi with
      | some info => rw [wikiStep_hit_found hr hc]; exact hp
      | none => rw [wikiStep_hit_neg hr hc]; exact hp
    | none =>
      cases ho : oracle r with
      | some info =>
        rw [wikiStep_miss_found hr hc ho]
        split
        · exact List.mem_append_left _ hp
        · exact hp
      | none =>
        rw [wikiStep_miss_notfound hr hc ho]
        split
        · exact List.mem_append_left _ hp
        · exact hp

theorem wiki_snaps_mono (oracle : EReactor → Option WikiInfo) (rs : List EReactor)
    {p : Nat × List EReactor} :
    ∀ {m n : Nat}, m ≤ n → p ∈ (wikiLoopN oracle rs m).snaps →
      p ∈ (wikiLoopN oracle rs n).snaps := by
  intro m n hmn
  induction n with
  | zero =>
    intro hp
    have hm0 : m = 0 := by omega
    rw [hm0] at hp
    exact hp
  | succ j ihj =>
    intro hp
    by_cases hmj : m = j + 1
    · rw [hmj] at hp
      exact hp
    · have hmj' : m ≤ j := by omega
      rw [wikiLoopN_succ]
      exact wikiStep_snaps_mono oracle _ j (ihj hmj' hp)

/- ---------- C6 ---------- -/

/-- C6: cache single-flight.  Over a whole run of
    enrich_wikipedia.enrich_reactors, the collaborator is called exactly once
    per derived base-plant key that occurs among the input rows (so two rows
    sharing a key trigger one lookup, the second served from cache), and the
    run-scoped cache holds at most one entry per key — including the explicit
    negative marker stored when the lookup found nothing. -/
theorem C6_cache_single_flight (oracle : EReactor → Option WikiInfo) (rs : List EReactor)
    (k : String) :
    (wikiEnrich oracle rs).lookupLog.count k = (if k ∈ baseKeys rs then 1 else 0) ∧
    ((wikiEnrich oracle rs).cache.map Prod.fst).count k ≤ 1 := by
  have hlog : (wikiEnrich oracle rs).lookupLog = (wikiLoopN oracle rs rs.length).lookupLog := rfl
  have hcache : (wikiEnrich oracle rs).cache = (wikiLoopN oracle rs rs.length).cache := rfl
  rw [hlog, hcache]
  constructor
  · rw [wiki_log_inv oracle rs rs.length k]
    have hiff : (cacheFind (wikiLoopN oracle rs rs.length).cache k).isSome = true ↔
        k ∈ baseKeys rs := by
      rw [wiki_cache_inv oracle rs rs.length k, List.take_length]
    by_cases h : k ∈ baseKeys rs
    · rw [if_pos (hiff.mpr h), if_pos h]
    · rw [if_neg (fun hs => h (hiff.mp hs)), if_neg h]
  · exact wiki_cachekeys_inv oracle rs rs.length k

/- ---------- C5 ---------- -/

/-- C5 fails as stated: on 51 rows all sharing one base key, rows 2..51 are
    served from cache and their loop iterations skip the progress-save check
    entirely, so after the 50th processed item no snapshot exists — the only
    snapshot of the whole run is the final one, written after item 51. -/
theorem C5_counterexample :
    c5Rows.length = 51 ∧
    ((wikiEnrich (fun _ => none) c5Rows).snaps.map Prod.fst) = [51] := by
  decide

/-- C5 (amended): every snapshot written by the enrichment loop is taken at a
    50-item boundary (or is the final snapshot) and its content equals the
    in-memory record list at that instant; the final snapshot is always
    written and equals the final in-memory state; and a snapshot is in fact
    written after item n+1 whenever (n+1) is a 50-multiple and item n+1 went
    through the full lookup path (cache miss) — but a 50-boundary whose item
    was served from cache (or skipped) writes no snapshot. -/
theorem C5_checkpoint_cadence :
    (∀ (oracle : EReactor → Option WikiInfo) (rs : List EReactor)
        (p : Nat × List EReactor), p ∈ (wikiEnrich oracle rs).snaps →
      (p.1 % 50 = 0 ∨ p.1 = rs.length) ∧ p.1 ≤ rs.length ∧
      p.2 = (wikiLoopN oracle rs p.1).reactors) ∧
    (∀ (oracle : EReactor → Option WikiInfo) (rs : List EReactor),
      (rs.length, (wikiLoopN oracle rs rs.length).reactors) ∈ (wikiEnrich oracle rs).snaps ∧
      (wikiEnrich oracle rs).reactors = (wikiLoopN oracle rs rs.length).reactors) ∧
    (∀ (oracle : EReactor → Option WikiInfo) (rs : List EReactor) (n : Nat) (r : EReactor),
      rs[n]? = some r → (n + 1) % 50 = 0 →
      cacheFind (wikiLoopN oracle rs n).cache (baseName (r.Name.getD "")) = none →
      (n + 1, (wikiLoopN oracle rs (n + 1)).reactors) ∈ (wikiEnrich oracle rs).snaps) := by
  have hsnaps : ∀ (oracle : EReactor → Option WikiInfo) (rs : List EReactor),
      (wikiEnrich oracle rs).snaps = (wikiLoopN oracle rs rs.length).snaps ++
        [(rs.length, (wikiLoopN oracle rs rs.length).reactors)] := fun _ _ => rfl
  refine ⟨?_, ?_, ?_⟩
  · intro oracle rs p hp
    rw [hsnaps] at hp
    rcases List.mem_append.mp hp with hm | hm
    · obtain ⟨ha, -, hc, hd⟩ := wiki_snaps_inv oracle rs rs.length p hm
      exact ⟨Or.inl ha, hc, hd⟩
    · rw [List.mem_singleton.mp hm]
      exact ⟨Or.inr rfl, le_refl _, rfl⟩
  · intro oracle rs
    constructor
    · rw [hsnaps]
      exact List.mem_append_right _ (by simp)
    · rfl
  · intro oracle rs n r hrs hmod hc
    have hrn : (wikiLoopN oracle rs n).reactors[n]? = some r := by
      rw [wiki_tail_inv oracle rs n n (le_refl n)]
      exact hrs
    have hlen : n < rs.length := getq_lt hrs
    have hmem : (n + 1, (wikiLoopN oracle rs (n + 1)).reactors) ∈
        (wikiLoopN oracle rs (n + 1)).snaps := by
      cases ho : oracle r with
      | some info =>
        have hstep : wikiLoopN oracle rs (n + 1) =
            { reactors := (wikiLoopN oracle rs n).reactors.set n (applyWiki info r),
              cache := (wikiLoopN oracle rs n).cache ++
                [(baseName (r.Name.getD ""), some info)],
              enriched := (wikiLoopN oracle rs n).enriched + 1,
              snaps := (wikiLoopN oracle rs n).snaps ++
                [(n + 1, (wikiLoopN oracle rs n).reactors.set n (applyWiki info r))],
              lookupLog := (wikiLoopN oracle rs n).lookupLog ++
                [baseName (r.Name.getD "")] } := by
          rw [wikiLoopN_succ, wikiStep_miss_found hrn hc ho, if_pos hmod]
        rw [hstep]
        exact List.mem_append_right _ (by simp)
      | none =>
        have hstep : wikiLoopN oracle rs (n + 1) =
            { reactors := (wikiLoopN oracle rs n).reactors,
              cache := (wikiLoopN oracle rs n).cache ++
                [(baseName (r.Name.getD ""), none)],
              enriched := (wikiLoopN oracle rs n).enriched,
              snaps := (wikiLoopN oracle rs n).snaps ++
                [(n + 1, (wikiLoopN oracle rs n).reactors)],
              lookupLog := (wikiLoopN oracle rs n).lookupLog ++
                [baseName (r.Name.getD "")] } := by
          rw [wikiLoopN_succ, wikiStep_miss_notfound hrn hc ho, if_pos hmod]
        rw [hstep]
        exact List.mem_append_right _ (by simp)
    rw [hsnaps]
    exact List.mem_append_left _
      (wiki_snaps_mono oracle rs (by omega : n + 1 ≤ rs.length) hmem)

/-- Witness for C5: with 50 rows of pairwise distinct base keys the 50th item
    is a cache miss, so a snapshot is written right after it. -/
theorem C5_checkpoint_cadence_witness :
    (50, (wikiLoopN (fun _ => none) c5Rows50 50).reactors) ∈
      (wikiEnrich (fun _ => none) c5Rows50).snaps :=
  C5_checkpoint_cadence.2.2 (fun _ => none) c5Rows50 49 { Name := some "r49x" }
    (by decide) (by decide) (by decide)
